import Mathlib

/-!
Verification of the llm-md template engine (`llm_md_parser.py`).

The development shallowly embeds the two pipelines of the source file:
the template parser / worksheet generator (`parse_llm_md` and helpers) and
the worksheet parser (`parse_worksheet_content` and helpers).  Strings are
modelled as `List Char`; Python exceptions are modelled with `Except PyErr`;
Python dicts that are only read through `.get` are modelled as association
lists; dict assignment is modelled by `dictInsert`, which updates an existing
binding in place or appends a fresh one, exactly like CPython insertion-order
dicts.
-/

namespace LlmMd

/-- Whitespace recognised by Python str.strip and by the regex class \s
(space, tab, newline, carriage return, vertical tab, form feed). -/
def isPyWs (c : Char) : Bool :=
  c == ' ' || c == '\t' || c == '\n' || c == '\r' || c == '\x0b' || c == '\x0c'

/-- Python str.strip(): drop whitespace from both ends. -/
def pyStripL (cs : List Char) : List Char :=
  ((cs.dropWhile isPyWs).reverse.dropWhile isPyWs).reverse

/-- Python str.split(sep) for a one-character separator: no collapsing,
an empty string yields one empty part. -/
def splitOnCh (sep : Char) : List Char → List (List Char)
  | [] => [[]]
  | c :: rest =>
    if c = sep then [] :: splitOnCh sep rest
    else
      match splitOnCh sep rest with
      | l :: ls => (c :: l) :: ls
      | [] => [[c]]

/-- Python "sep".join for a one-character separator. -/
def joinWith (sep : Char) : List (List Char) → List Char
  | [] => []
  | [l] => l
  | l :: l2 :: ls => l ++ sep :: joinWith sep (l2 :: ls)

/-- Newline join, as used to assemble the generated worksheet. -/
def joinNl : List (List Char) → List Char := joinWith '\n'

/-- Dotted-path join used for quantity lookup keys. -/
def joinDot : List (List Char) → List Char := joinWith '.'

/-- Python substring test `pat in s`. -/
def containsSeq (pat : List Char) : List Char → Bool
  | [] => pat.isEmpty
  | c :: rest => List.isPrefixOf pat (c :: rest) || containsSeq pat rest

/-- Python str.lower (ASCII case folding suffices for the source inputs). -/
def lowerL (cs : List Char) : List Char := cs.map Char.toLower

/-- Python str.isdigit restricted to ASCII digits. -/
def isDigitsL (cs : List Char) : Bool := !cs.isEmpty && cs.all Char.isDigit

/-- Numeric value of a digit string. -/
def natVal (cs : List Char) : Nat :=
  cs.foldl (fun a c => a * 10 + (c.toNat - ('0').toNat)) 0

/-- Occurrence count of a line in a list of lines. -/
def countOcc (l : List Char) : List (List Char) → Nat
  | [] => 0
  | x :: xs => (if x = l then 1 else 0) + countOcc l xs

/-- Concatenation of the images of a list, used to model per-instance output. -/
def flatMapL {α β : Type} (f : α → List β) : List α → List β
  | [] => []
  | x :: xs => f x ++ flatMapL f xs

/-- Errors raised by the source; each constructor is one raise site (all are
ValueError in Python, distinguished here by their message shape). -/
inductive PyErr where
  | invalidHeaderFormat (line : List Char)
  | invalidCardinalityFormat (body : List Char)
  | invalidIntLiteral (s : List Char)
  | unpackTooMany
  | sectionNotFound (name : List Char)
deriving DecidableEq, Repr

/-- Message text attached to each raise site, mirroring the Python f-strings
and interpreter messages. -/
def PyErr.message : PyErr → List Char
  | .invalidHeaderFormat l => ("Invalid header format: ").toList ++ l
  | .invalidCardinalityFormat b => ("Invalid cardinality format: ").toList ++ b
  | .invalidIntLiteral s =>
      ("invalid literal for int() with base 10: ").toList ++ '\'' :: s ++ ['\'']
  | .unpackTooMany => ("too many values to unpack (expected 2)").toList
  | .sectionNotFound n =>
      ("Section ").toList ++ '\'' :: n ++ '\'' :: (" not found in template").toList

/-- Cardinality annotation of a header record, as stored by
`_parse_cardinality` (unlimited keeps min 0 / max None implicitly). -/
inductive Cardinality where
  | unlimited
  | fixed (count : Int)
  | range (min max : Int)
deriving DecidableEq, Repr

/-- One parsed header line: level, trimmed name, cardinality, required flag
and notes, as produced by `_parse_header_line` (children live in `HTree`). -/
structure HeaderData where
  level : Nat
  name : List Char
  card : Cardinality
  required : Bool
  notes : List Char
deriving DecidableEq, Repr

/-- Header record with its (initially empty) list of children. -/
inductive HTree where
  | mk (info : HeaderData) (children : List HTree)
deriving Repr

def HTree.info : HTree → HeaderData
  | .mk d _ => d

def HTree.kids : HTree → List HTree
  | .mk _ c => c

def HTree.lvl (t : HTree) : Nat := (HTree.info t).level

/-- Item of the parsed template structure: a worksheet-section wrapper with
its flat content, or a bare header record. -/
inductive SItem where
  | worksheetSection (name : List Char) (content : List HTree)
  | header (item : HTree)
deriving Repr

/-- Python int() on a stripped optionally signed digit string. -/
def pyInt (s : List Char) : Except PyErr Int :=
  let t := pyStripL s
  let p : Int × List Char :=
    match t with
    | '+' :: r => (1, r)
    | '-' :: r => (-1, r)
    | r => (1, r)
  if !p.2.isEmpty && p.2.all Char.isDigit then .ok (p.1 * Int.ofNat (natVal p.2))
  else .error (.invalidIntLiteral s)

/-- Python str.strip of the bracket characters, as in `.strip('[]')`. -/
def stripBrackets (cs : List Char) : List Char :=
  ((cs.dropWhile (fun c => c == '[' || c == ']')).reverse.dropWhile
    (fun c => c == '[' || c == ']')).reverse

/-- Model of `_parse_cardinality`: bracket body `*` is unlimited, pure digits
are fixed, a body containing a dash is split once into a range, anything else
raises. -/
def parseCardinality (cardStr : List Char) : Except PyErr Cardinality :=
  let body := stripBrackets cardStr
  if body = ['*'] then .ok .unlimited
  else if isDigitsL body then .ok (.fixed (Int.ofNat (natVal body)))
  else if body.contains '-' then
    match splitOnCh '-' body with
    | [a, b] => do
        let mn ← pyInt a
        let mx ← pyInt b
        .ok (.range mn mx)
    | _ => .error .unpackTooMany
  else .error (.invalidCardinalityFormat body)

/-! Deterministic model of the Python header-body regex
`^([^|\[\$]+?)(?:\s*(\[[^\]]*\]))?(?:\s*(\$))?(?:\s*\|\s*(.*))?$`
with its backtracking order: group 1 is lazy (shortest first), each optional
group is tried present before absent, left choice points are revisited last. -/

def skipWs (cs : List Char) : List Char := cs.dropWhile isPyWs

/-- Scan of `[^\]]*\]` after an opening bracket: content up to the first
closing bracket, plus the remainder. -/
def takeUntilRB : List Char → Option (List Char × List Char)
  | [] => none
  | c :: rest =>
    if c = ']' then some ([], rest)
    else
      match takeUntilRB rest with
      | some (a, b) => some (c :: a, b)
      | none => none

/-- Alternatives for the optional bracket group (present first), each with
its remainder; the captured group includes the brackets. -/
def bracketAlts (r : List Char) : List (Option (List Char) × List Char) :=
  if (skipWs r).head? = some '[' then
    match takeUntilRB (skipWs r).tail with
    | some (inner, after) => [(some ('[' :: inner ++ [']']), after), (none, r)]
    | none => [(none, r)]
  else [(none, r)]

/-- Alternatives for the optional required-marker group (present first). -/
def dollarAlts (r : List Char) : List (Bool × List Char) :=
  if (skipWs r).head? = some '$' then [(true, (skipWs r).tail), (false, r)]
  else [(false, r)]

/-- Alternatives for the optional pipe-notes group (present first); when the
pipe is present the trailing `(.*)` consumes everything. -/
def pipeAlts (r : List Char) : List (Option (List Char) × List Char) :=
  if (skipWs r).head? = some '|' then
    [(some (skipWs (skipWs r).tail), []), (none, r)]
  else [(none, r)]

/-- Match of the tail after group 1: optional bracket, optional dollar,
optional pipe with notes, then end of input, in backtracking order. -/
def matchAfterName (r : List Char) :
    Option (Option (List Char) × Bool × List Char) :=
  (bracketAlts r).findSome? (fun br =>
    (dollarAlts br.2).findSome? (fun dl =>
      (pipeAlts dl.2).findSome? (fun pp =>
        if pp.2 = [] then some (br.1, dl.1, pp.1.getD []) else none)))

/-- Lazy group 1: grow a nonempty prefix of characters outside `|[$` until the
tail matches; fail at the first forbidden character or end of input. -/
def matchBody (acc : List Char) :
    List Char → Option (List Char × Option (List Char) × Bool × List Char)
  | [] => none
  | c :: rest =>
    if c = '|' || c = '[' || c = '$' then none
    else
      match matchAfterName rest with
      | some (b, d, n) => some (acc ++ [c], b, d, n)
      | none => matchBody (acc ++ [c]) rest

/-- Model of `_parse_header_line`: count leading hash marks, strip the body,
match the grammar, default the cardinality bracket to `[1]`. -/
def parseHeaderLine (line : List Char) : Except PyErr HeaderData :=
  let level := (line.takeWhile (· = '#')).length
  let content := pyStripL (line.drop level)
  match matchBody [] content with
  | none => .error (.invalidHeaderFormat line)
  | some (g1, b, req, notes) =>
    match parseCardinality (b.getD ("[1]").toList) with
    | .ok card => .ok ⟨level, pyStripL g1, card, req, notes⟩
    | .error e => .error e

/-- Model of `_parse_template_structure`: the loop state is the finished item
list plus the currently open worksheet section (the most recently created
section, which in the source receives all later headers). -/
def ptsGo : List (List Char) → List SItem → Option (List Char × List HTree) →
    Except PyErr (List SItem)
  | [], done, none => .ok done
  | [], done, some (n, c) => .ok (done ++ [.worksheetSection n c])
  | l :: rest, done, cur =>
    let line := pyStripL l
    if line = [] then ptsGo rest done cur
    else if List.isPrefixOf ['-', ' '] line then
      let name := pyStripL (line.drop 2)
      match cur with
      | some (n, c) => ptsGo rest (done ++ [.worksheetSection n c]) (some (name, []))
      | none => ptsGo rest done (some (name, []))
    else if List.isPrefixOf ['#'] line then
      match parseHeaderLine line with
      | .error e => .error e
      | .ok h =>
        match cur with
        | some (n, c) => ptsGo rest done (some (n, c ++ [HTree.mk h []]))
        | none => ptsGo rest (done ++ [.header (HTree.mk h [])]) cur
    else ptsGo rest done cur

def parseTemplateStructure (lines : List (List Char)) : Except PyErr (List SItem) :=
  ptsGo lines [] none

/-- Model of `_find_section_structure`: content of the first worksheet section
with the requested name. -/
def findSectionStructure : List SItem → List Char → Option (List HTree)
  | [], _ => none
  | .worksheetSection n c :: rest, s =>
    if n = s then some c else findSectionStructure rest s
  | .header _ :: rest, s => findSectionStructure rest s

/-- Python `quantities.get(key, default)` over the caller-supplied mapping. -/
def qGet (q : List (List Char × Int)) (k : List Char) (d : Int) : Int :=
  match q.find? (fun p => p.1 == k) with
  | some p => p.2
  | none => d

/-- Effective instance count resolved by `_generate_item_output`: unlimited
takes the override with default 2, range takes the override with the range
minimum as default, fixed always takes the fixed count. -/
def effCount (q : List (List Char × Int)) (pathKey : List Char) :
    Cardinality → Int
  | .unlimited => qGet q pathKey 2
  | .range mn _ => qGet q pathKey mn
  | .fixed c => c

def hashes (n : Nat) : List Char := List.replicate n '#'

/-- Continuation of `_build_hierarchy`'s popping loop while carrying the node
just finished: while the loop keeps popping, that node is folded into the
children of the next popped entry; when it stops, the node is attached to the
new stack top, and when the stack drains the node is the finished bottom
record, reported separately (in the source it was appended to the root list
when it was first processed and only mutated since). -/
def popDown (lvl : Nat) (node : HTree) :
    List (HTree × List HTree) → Option HTree × List (HTree × List HTree)
  | [] => (some node, [])
  | (p, pk) :: rest =>
    if lvl ≤ HTree.lvl p then
      popDown lvl (HTree.mk (HTree.info p) (HTree.kids p ++ (pk ++ [node]))) rest
    else (none, (p, pk ++ [node]) :: rest)

/-- Model of `_build_hierarchy`'s `while stack and stack[-1].level >= level`
popping.  The source mutates shared nodes; here each stack entry carries the
children accumulated so far, a popped entry is finished (children appended)
and attached to the entry below it, or reported as a finished root when it was
the stack bottom.  A popped node never receives children afterwards in the
source, so the results agree. -/
def popGE (lvl : Nat) (roots : List HTree)
    (stack : List (HTree × List HTree)) :
    List HTree × List (HTree × List HTree) :=
  match stack with
  | [] => (roots, [])
  | (h, kids) :: rest =>
    if lvl ≤ HTree.lvl h then
      let pr := popDown lvl (HTree.mk (HTree.info h) (HTree.kids h ++ kids)) rest
      (roots ++ (match pr.1 with | some n => [n] | none => []), pr.2)
    else (roots, (h, kids) :: rest)

/-- One step of `_build_hierarchy`: pop stack entries whose level is at least
the incoming level, then push the incoming record with no new children. -/
def hierStep (st : List HTree × List (HTree × List HTree)) (item : HTree) :
    List HTree × List (HTree × List HTree) :=
  let st2 := popGE (HTree.lvl item) st.1 st.2
  (st2.1, (item, []) :: st2.2)

/-- Model of `_build_hierarchy`: fold the flat list through the stack, then
drain the remaining stack (every level is at least 0). -/
def buildHierarchy (content : List HTree) : List HTree :=
  let st := content.foldl hierStep ([], [])
  (popGE 0 st.1 st.2).1

mutual

/-- Model of `_generate_item_output`, returning the lines it appends.  The
three branches follow the source: single leaf, single container, and the
multiple-instances loop with the level-2 chapter numbering quirk; every
level-1 blank line is emitted where the source emits it (after a single
top-level item, and inside the loop after each repeated container). -/
def genItemOutput (q : List (List Char × Int)) (path : List (List Char)) :
    HTree → List (List Char)
  | .mk d ch =>
    let currentPath := path ++ [d.name]
    let pathKey := joinDot currentPath
    let count := effCount q pathKey d.card
    if count = 1 then
      if ch.isEmpty then
        [hashes d.level ++ ' ' :: d.name ++ (" | ").toList] ++
          (if d.level = 1 then [[]] else [])
      else
        ([hashes d.level ++ ' ' :: d.name] ++ (if d.level = 1 then [[]] else []))
          ++ genForest q currentPath ch
    else
      flatMapL (fun i =>
        if ch.isEmpty then [hashes d.level ++ ' ' :: d.name ++ (" | ").toList]
        else
          (if d.level = 2 ∧ containsSeq ("chapter").toList (lowerL d.name) then
            [hashes d.level ++ ' ' :: d.name ++ ' ' :: Nat.toDigits 10 (i + 1)]
          else
            [hashes d.level ++ ' ' :: d.name])
          ++ genForest q currentPath ch
          ++ (if d.level = 1 then [[]] else []))
        (List.range count.toNat)

/-- Output of `_generate_item_output` over a list of sibling items. -/
def genForest (q : List (List Char × Int)) (path : List (List Char)) :
    List HTree → List (List Char)
  | [] => []
  | t :: ts => genItemOutput q path t ++ genForest q path ts

end

/-- One step of `_generate_worksheet`: a worksheet section emits a separating
blank line (only when output already exists), its level-1 header and the rule,
then its built hierarchy; a bare header is generated directly. -/
def gwStep (q : List (List Char × Int)) (result : List (List Char)) :
    SItem → List (List Char)
  | .worksheetSection name content =>
    (if !result.isEmpty then result ++ [[]] else result)
      ++ ['#' :: ' ' :: name, ("---").toList]
      ++ genForest q [] (buildHierarchy content)
  | .header t => result ++ genItemOutput q [] t

/-- Model of `_generate_worksheet`: fold the structure and join with
newlines. -/
def generateWorksheet (struct : List SItem) (q : List (List Char × Int)) :
    List Char :=
  joinNl (struct.foldl (gwStep q) [])

/-- Model of `parse_llm_md`: strip and split the template, parse the
structure, then either generate the whole worksheet or only the requested
section.  An empty requested name is falsy in Python and behaves like no
section; a missing section, and also a found section whose content list is
empty (both are falsy for `if not section_structure`), raise the
section-not-found error. -/
def parseLlmMd (template : List Char) (sect : Option (List Char))
    (quantities : List (List Char × Int)) : Except PyErr (List Char) :=
  match parseTemplateStructure (splitOnCh '\n' (pyStripL template)) with
  | .error e => .error e
  | .ok struct =>
    match sect with
    | some s =>
      if s = [] then .ok (generateWorksheet struct quantities)
      else
        match findSectionStructure struct s with
        | some content =>
          if content.isEmpty then .error (.sectionNotFound s)
          else .ok (generateWorksheet (content.map SItem.header) quantities)
        | none => .error (.sectionNotFound s)
    | none => .ok (generateWorksheet struct quantities)

/-! Deterministic model of the worksheet field-header regex
`^(#+)\s*(.+?)\s*\|\s*(.*)$` under Python backtracking: the hash run is
greedy, the following whitespace run is greedy, group 2 is lazy; on failure
the most recent choice point backtracks first (whitespace run shrinks, then
the hash run shrinks). -/

/-- Index of the first pipe character in a list. -/
def findPipeIdx : List Char → Option Nat
  | [] => none
  | c :: rest =>
    if c = '|' then some 0 else (findPipeIdx rest).map (· + 1)

/-- Index of the first pipe character at position at least 1. -/
def firstPipeGe1 : List Char → Option Nat
  | [] => none
  | _ :: t => (findPipeIdx t).map (· + 1)

/-- Length of the maximal whitespace run ending just before index `q`. -/
def wsRunBefore (r : List Char) (q : Nat) : Nat :=
  ((r.take q).reverse.takeWhile isPyWs).length

/-- Attempted match with a given hash count and whitespace-run length: the
lazy group 2 is the shortest nonempty prefix followed by whitespace and then
the earliest eligible pipe. -/
def tryAt (afterH : List Char) (a : Nat) : Option (List Char) :=
  let r := afterH.drop a
  match firstPipeGe1 r with
  | some q => some (r.take (max 1 (q - wsRunBefore r q)))
  | none => none

/-- Backtracking over the whitespace-run length, longest first. -/
def tryA (afterH : List Char) : Nat → Option (List Char)
  | 0 => tryAt afterH 0
  | a + 1 =>
    match tryAt afterH (a + 1) with
    | some n => some n
    | none => tryA afterH a

/-- Backtracking over the hash-run length, longest first (for a shorter run
the next character is a hash, so the whitespace run is empty). -/
def tryH (s : List Char) : Nat → Option (List Char)
  | 0 => none
  | h + 1 =>
    let afterH := s.drop (h + 1)
    match tryA afterH ((afterH.takeWhile isPyWs).length) with
    | some n => some n
    | none => tryH s h

/-- Field name extracted by the worksheet parser from a field header line:
group 2 of the regex, stripped. -/
def matchWName (line : List Char) : Option (List Char) :=
  match tryH line (line.takeWhile (· = '#')).length with
  | some n => some (pyStripL n)
  | none => none

/-- Parsed worksheet section: title, raw content block, and the field
mapping. -/
structure PSection where
  title : List Char
  content : List Char
  fields : List (List Char × List Char)
deriving DecidableEq, Repr

/-- Python dict assignment `m[k] = v`: update the existing binding in place,
or append a fresh one. -/
def dictInsert {α : Type} (m : List (List Char × α)) (k : List Char) (v : α) :
    List (List Char × α) :=
  if m.any (fun p => p.1 == k) then
    m.map (fun p => if p.1 = k then (k, v) else p)
  else m ++ [(k, v)]

/-- Python dict read `m.get(k)`. -/
def dictLookup {α : Type} (m : List (List Char × α)) (k : List Char) :
    Option α :=
  match m.find? (fun p => p.1 == k) with
  | some p => some p.2
  | none => none

/-- Python truthiness of an optional string: present and nonempty. -/
def truthyStr : Option (List Char) → Bool
  | some s => !s.isEmpty
  | none => false

/-- Loop state of `parse_worksheet_content`: finished sections, the open
section title and its fields, the content buffer, and the open field with its
accumulated body lines. -/
structure PWState where
  sections : List (List Char × PSection)
  curTitle : Option (List Char)
  curFields : List (List Char × List Char)
  curContent : List (List Char)
  curField : Option (List Char)
  curFieldContent : List (List Char)

/-- Commit of the open field: its accumulated body lines, newline-joined and
stripped, stored under its name. -/
def commitField (st : PWState) : List (List Char × List Char) :=
  dictInsert st.curFields (st.curField.getD [])
    (pyStripL (joinNl st.curFieldContent))

/-- Model of one non-section-boundary iteration of the
`parse_worksheet_content` loop, on the stripped line.  A header line ending in
a pipe commits the open field (without resetting it) and, when the field regex
matches, opens the named field; a header line not ending in a pipe commits and
clears the open field; any other line accumulates into the content buffer and
the open field body. -/
def stepLine (st : PWState) (line : List Char) : PWState :=
  if List.isPrefixOf ['#'] line && line.getLast? = some '|' then
    let st1 :=
      if truthyStr st.curField && st.curTitle.isSome then
        { st with curFields := commitField st }
      else st
    match matchWName line with
    | some nm =>
      { st1 with curField := some nm, curFieldContent := [],
                 curContent := st1.curContent ++ [line] }
    | none => st1
  else if List.isPrefixOf ['#'] line then
    let st1 :=
      if truthyStr st.curField && st.curTitle.isSome then
        { st with curFields := commitField st, curField := none,
                  curFieldContent := [] }
      else st
    { st1 with curContent := st1.curContent ++ [line] }
  else
    { st with curContent := st.curContent ++ [line],
              curFieldContent :=
                if truthyStr st.curField then st.curFieldContent ++ [line]
                else st.curFieldContent }

/-- Model of `_finalize_section`: commit a pending truthy field, join the
content buffer, and store the section under its title; without an open
section the stored mapping is returned unchanged. -/
def finalizeIfOpen (st : PWState) : List (List Char × PSection) :=
  match st.curTitle with
  | none => st.sections
  | some t =>
    let fields := if truthyStr st.curField then commitField st else st.curFields
    dictInsert st.sections t ⟨t, joinNl st.curContent, fields⟩

/-- Main loop of `parse_worksheet_content`: a stripped line starting with a
level-1 header marker whose successor strips to the rule line opens a new
section (finalizing the previous one and skipping both lines); every other
line goes through `stepLine`. -/
def pwGo : List (List Char) → PWState → List (List Char × PSection)
  | [], st => finalizeIfOpen st
  | [l], st => finalizeIfOpen (stepLine st (pyStripL l))
  | l :: r :: rest2, st =>
    let line := pyStripL l
    if List.isPrefixOf ('#' :: [' ']) line && pyStripL r = ("---").toList then
      pwGo rest2 ⟨finalizeIfOpen st, some (pyStripL (line.drop 2)), [],
                  [line, r], none, []⟩
    else pwGo (r :: rest2) (stepLine st line)

/-- Result shape of `parse_worksheet_content`: the full section mapping, or a
single optional section when a truthy section name was supplied (a missing
name yields the empty record, modelled as `none`). -/
inductive PWResult where
  | all (sections : List (List Char × PSection))
  | one (sec : Option PSection)
deriving DecidableEq, Repr

/-- Model of `parse_worksheet_content`: strip and split the worksheet text,
run the scan loop from the empty state, and project the result through the
optional section name (empty names are falsy and return the full mapping). -/
def parseWorksheetContent (text : List Char) (sectionName : Option (List Char)) :
    PWResult :=
  let sections := pwGo (splitOnCh '\n' (pyStripL text)) ⟨[], none, [], [], none, []⟩
  match sectionName with
  | some s => if s.isEmpty then .all sections else .one (dictLookup sections s)
  | none => .all sections

/-! Helper lemmas about the list utilities. -/

theorem countOcc_append (l : List Char) (a b : List (List Char)) :
    countOcc l (a ++ b) = countOcc l a + countOcc l b := by
  induction a with
  | nil => simp [countOcc]
  | cons x xs ih => simp [countOcc, ih]; omega

theorem flatMapL_append {α β : Type} (f : α → List β) (a b : List α) :
    flatMapL f (a ++ b) = flatMapL f a ++ flatMapL f b := by
  induction a with
  | nil => simp [flatMapL]
  | cons x xs ih => simp [flatMapL, ih]

theorem flatMapL_const_single {α β : Type} (a : List β) (xs : List α) :
    flatMapL (fun _ => [a]) xs = List.replicate xs.length a := by
  induction xs with
  | nil => rfl
  | cons x xs ih => simp [flatMapL, ih, List.replicate_succ]

theorem countOcc_replicate_self (a : List Char) (n : Nat) :
    countOcc a (List.replicate n a) = n := by
  induction n with
  | zero => rfl
  | succ n ih => simp [List.replicate_succ, countOcc, ih]; omega

theorem isPrefixOf_self (l : List Char) : List.isPrefixOf l l = true := by
  induction l with
  | nil => rfl
  | cons c rest ih => simp [List.isPrefixOf, ih]

theorem containsSeq_suffix (l : List Char) (a : List Char) :
    containsSeq l (a ++ l) = true := by
  induction a with
  | nil =>
    cases l with
    | nil => rfl
    | cons c r => simp [containsSeq, isPrefixOf_self]
  | cons x a ih => simp [containsSeq, ih]

theorem genForest_append (q : List (List Char × Int)) (path : List (List Char))
    (a b : List HTree) :
    genForest q path (a ++ b) = genForest q path a ++ genForest q path b := by
  induction a with
  | nil => simp [genForest]
  | cons t ts ih => simp [genForest, ih]

/-- Leaf output line for a childless record: hash marks, the name, and the
blank-field pipe marker. -/
def leafLine (d : HeaderData) : List Char :=
  hashes d.level ++ ' ' :: d.name ++ (" | ").toList

theorem leafLine_ne_nil (d : HeaderData) : leafLine d ≠ [] := by
  simp [leafLine]

/-- The number of leaf lines a childless record generates is exactly its
effective count. -/
theorem genItemOutput_leaf_count (d : HeaderData) (q : List (List Char × Int))
    (path : List (List Char)) :
    countOcc (leafLine d) (genItemOutput q path (.mk d [])) =
      (effCount q (joinDot (path ++ [d.name])) d.card).toNat := by
  have hne : ¬([] : List Char) = leafLine d := fun h => leafLine_ne_nil d h.symm
  by_cases h : effCount q (joinDot (path ++ [d.name])) d.card = 1
  · by_cases hl : d.level = 1 <;>
      simp [genItemOutput, h, hl, countOcc, countOcc_append, leafLine, hne]
  · simp [genItemOutput, h, leafLine, flatMapL_const_single,
      countOcc_replicate_self]

theorem splitOnCh_no_sep (sep : Char) (l : List Char) (h : sep ∉ l) :
    splitOnCh sep l = [l] := by
  induction l with
  | nil => rfl
  | cons c rest ih =>
    simp only [List.mem_cons, not_or] at h
    have hc : ¬c = sep := fun hh => h.1 hh.symm
    rw [splitOnCh, if_neg hc, ih h.2]

theorem splitOnCh_append_sep (sep : Char) (l rest : List Char) (h : sep ∉ l) :
    splitOnCh sep (l ++ sep :: rest) = l :: splitOnCh sep rest := by
  induction l with
  | nil => simp [splitOnCh]
  | cons c t ih =>
    simp only [List.mem_cons, not_or] at h
    have hc : ¬c = sep := fun hh => h.1 hh.symm
    rw [List.cons_append, splitOnCh, if_neg hc, ih h.2]

theorem splitOnCh_joinWith (sep : Char) (ls : List (List Char)) (hne : ls ≠ [])
    (h : ∀ l ∈ ls, sep ∉ l) : splitOnCh sep (joinWith sep ls) = ls := by
  induction ls with
  | nil => exact absurd rfl hne
  | cons l ls ih =>
    cases ls with
    | nil => exact splitOnCh_no_sep sep l (h l (by simp))
    | cons l2 ls2 =>
      rw [joinWith, splitOnCh_append_sep sep l _ (h l (by simp)),
        ih (by simp) (fun x hx => h x (by simp [hx]))]

/-! Claim theorems. -/

/-- Claim C2: with no applicable quantity override an unlimited record expands
to exactly 2 instances, a range record to exactly the range minimum, and a
fixed record always to the fixed count even when the quantities mapping has an
entry for its dotted path (the fixed branch never consults the mapping); the
conjuncts on `parseLlmMd` confirm this end to end on `[*]`, `[3-5]`, and `[4]`
with an override attempt. -/
theorem expand_cardinality_defaults (d : HeaderData)
    (q : List (List Char × Int)) (path : List (List Char))
    (hq : List.find? (fun p => p.1 == joinDot (path ++ [d.name])) q = none) :
    (d.card = .unlimited →
      countOcc (leafLine d) (genItemOutput q path (.mk d [])) = 2)
    ∧ (∀ mn mx : Int, d.card = .range mn mx →
      countOcc (leafLine d) (genItemOutput q path (.mk d [])) = mn.toNat)
    ∧ (∀ (c : Int) (q2 : List (List Char × Int)), d.card = .fixed c →
      countOcc (leafLine d) (genItemOutput q2 path (.mk d [])) = c.toNat)
    ∧ parseLlmMd (("### F [*]").toList) none [] =
        .ok (("### F | \n### F | ").toList)
    ∧ parseLlmMd (("### G [3-5]").toList) none [] =
        .ok (("### G | \n### G | \n### G | ").toList)
    ∧ parseLlmMd (("### H [4]").toList) none [(("H").toList, 9)] =
        .ok (("### H | \n### H | \n### H | \n### H | ").toList) := by
  refine ⟨?_, ?_, ?_, rfl, rfl, rfl⟩
  · intro hc
    rw [genItemOutput_leaf_count, hc]
    simp [effCount, qGet, hq]
  · intro mn mx hc
    rw [genItemOutput_leaf_count, hc]
    simp [effCount, qGet, hq]
  · intro c q2 hc
    rw [genItemOutput_leaf_count, hc]
    simp [effCount]

/-- Witness for C2 at a concrete unlimited record with no override. -/
theorem expand_cardinality_defaults_witness :
    List.find? (fun p => p.1 == joinDot ([] ++ [['u']]))
        ([] : List (List Char × Int)) = none
    ∧ countOcc (leafLine ⟨3, ['u'], .unlimited, false, []⟩)
        (genItemOutput [] [] (.mk ⟨3, ['u'], .unlimited, false, []⟩ [])) = 2 :=
  ⟨rfl, (expand_cardinality_defaults ⟨3, ['u'], .unlimited, false, []⟩ [] [] rfl).1 rfl⟩

/-- Claim C4: a level-2 container whose lowercase name contains "chapter"
emits 1-based numbered headers per instance, while a level-2 container named
"Scene" under identical conditions emits identical unsuffixed headers. -/
theorem chapter_numbering_quirk :
    parseLlmMd (("- S\n# Book\n## Chapter [*]\n### Title").toList) none
        [(("Book.Chapter").toList, 3)] =
      .ok (("# S\n---\n# Book\n\n## Chapter 1\n### Title | \n## Chapter 2\n### Title | \n## Chapter 3\n### Title | ").toList)
    ∧ parseLlmMd (("- S\n# Book\n## Scene [*]\n### Title").toList) none
        [(("Book.Scene").toList, 3)] =
      .ok (("# S\n---\n# Book\n\n## Scene\n### Title | \n## Scene\n### Title | \n## Scene\n### Title | ").toList) :=
  ⟨rfl, rfl⟩

/-- Counterexample to C7: `### Field [abc]` does raise, but the raised error
message is `Invalid cardinality format: abc`, which does not include the
offending raw line text. -/
theorem format_error_counter :
    parseLlmMd (("### Field [abc]").toList) none [] =
      .error (.invalidCardinalityFormat (("abc").toList))
    ∧ containsSeq (("### Field [abc]").toList)
        (PyErr.message (.invalidCardinalityFormat (("abc").toList))) = false :=
  ⟨rfl, rfl⟩

/-- Claim C7 as amended: both malformed cardinalities raise (`[abc]` as an
invalid cardinality format, `[2-]` through the failing integer conversion of
the empty string); header-grammar failures always include the raw line in
their message, but cardinality failures include only the bracket body, not
the raw line. -/
theorem format_error_amended :
    parseLlmMd (("### Field [abc]").toList) none [] =
      .error (.invalidCardinalityFormat (("abc").toList))
    ∧ parseLlmMd (("### Field [2-]").toList) none [] =
      .error (.invalidIntLiteral [])
    ∧ (∀ l : List Char,
        containsSeq l (PyErr.message (.invalidHeaderFormat l)) = true)
    ∧ containsSeq (("### Field [2-]").toList)
        (PyErr.message (.invalidIntLiteral [])) = false := by
  refine ⟨rfl, rfl, ?_, rfl⟩
  intro l
  exact containsSeq_suffix l (("Invalid header format: ").toList)

/-- Claim C10: a record with fixed cardinality 0 generates no lines at all
(its children included), and removing it from a structure, or from a sibling
list, leaves the generated worksheet unchanged. -/
theorem zero_count_generates_nothing (q : List (List Char × Int))
    (xs ys : List SItem) (lvl : Nat) (nm notes : List Char) (req : Bool)
    (ch : List HTree) :
    (∀ path, genItemOutput q path (.mk ⟨lvl, nm, .fixed 0, req, notes⟩ ch) = [])
    ∧ generateWorksheet
        (xs ++ SItem.header (.mk ⟨lvl, nm, .fixed 0, req, notes⟩ ch) :: ys) q
      = generateWorksheet (xs ++ ys) q
    ∧ (∀ path ts1 ts2,
        genForest q path (ts1 ++ .mk ⟨lvl, nm, .fixed 0, req, notes⟩ ch :: ts2)
          = genForest q path (ts1 ++ ts2)) := by
  have hz : ∀ path,
      genItemOutput q path (.mk ⟨lvl, nm, .fixed 0, req, notes⟩ ch) = [] := by
    intro path
    simp [genItemOutput, effCount, flatMapL]
  refine ⟨hz, ?_, ?_⟩
  · unfold generateWorksheet
    rw [List.foldl_append, List.foldl_append, List.foldl_cons]
    have : gwStep q (List.foldl (gwStep q) [] xs)
        (SItem.header (.mk ⟨lvl, nm, .fixed 0, req, notes⟩ ch))
        = List.foldl (gwStep q) [] xs := by
      simp [gwStep, hz]
    rw [this]
  · intro path ts1 ts2
    rw [genForest_append, genForest_append]
    simp [genForest, hz]

/-- Counterexample to C5: a level-1 container with effective count 2 emits a
blank line after each instance, so the generated worksheet contains two blank
lines, not the single trailing blank line after the whole repeated block that
the claim predicts. -/
theorem trailing_blank_counter :
    parseLlmMd (("- S\n# Par [*]\n## Kid").toList) none [] =
      .ok (("# S\n---\n# Par\n## Kid | \n\n# Par\n## Kid | \n").toList)
    ∧ countOcc [] (splitOnCh '\n'
        (("# S\n---\n# Par\n## Kid | \n\n# Par\n## Kid | \n").toList)) = 2 :=
  ⟨rfl, rfl⟩

/-- Claim C5 as amended: in the multiple-instances branch a container with
children emits, per instance, its header followed by its children, with one
blank line appended inside the loop after each instance when the record is
level 1, and with no blank line appended when the record has any other
level. -/
theorem trailing_blank_amended (d : HeaderData) (ch : List HTree)
    (q : List (List Char × Int)) (path : List (List Char))
    (hch : ch ≠ [])
    (hc : effCount q (joinDot (path ++ [d.name])) d.card ≠ 1) :
    (d.level = 1 →
      genItemOutput q path (.mk d ch) =
        flatMapL (fun _ =>
            ('#' :: ' ' :: d.name) ::
              (genForest q (path ++ [d.name]) ch ++ [[]]))
          (List.range (effCount q (joinDot (path ++ [d.name])) d.card).toNat))
    ∧ (d.level ≠ 1 →
      genItemOutput q path (.mk d ch) =
        flatMapL (fun i =>
            (if d.level = 2 ∧ containsSeq ("chapter").toList (lowerL d.name)
              then [hashes d.level ++ ' ' :: d.name ++ ' ' ::
                Nat.toDigits 10 (i + 1)]
              else [hashes d.level ++ ' ' :: d.name])
            ++ genForest q (path ++ [d.name]) ch)
          (List.range (effCount q (joinDot (path ++ [d.name])) d.card).toNat)) := by
  constructor
  · intro h1
    rcases ch with _ | ⟨a, t⟩
    · exact absurd rfl hch
    · simp [genItemOutput, hc, h1, hashes]
  · intro h1
    rcases ch with _ | ⟨a, t⟩
    · exact absurd rfl hch
    · simp [genItemOutput, hc, h1]

/-- Witness for the amended C5: a concrete unlimited level-1 container (blank
per instance) and a concrete unlimited level-2 container (no blank). -/
theorem trailing_blank_amended_witness :
    ([HTree.mk ⟨2, ['K'], .fixed 1, false, []⟩ []] ≠ ([] : List HTree))
    ∧ (effCount [] (joinDot ([] ++ [['P']])) Cardinality.unlimited ≠ 1)
    ∧ genItemOutput [] []
        (.mk ⟨1, ['P'], .unlimited, false, []⟩
          [HTree.mk ⟨2, ['K'], .fixed 1, false, []⟩ []]) =
      flatMapL (fun _ =>
          ('#' :: ' ' :: ['P']) ::
            (genForest [] ([] ++ [['P']])
              [HTree.mk ⟨2, ['K'], .fixed 1, false, []⟩ []] ++ [[]]))
        (List.range (effCount [] (joinDot ([] ++ [['P']]))
          Cardinality.unlimited).toNat)
    ∧ genItemOutput [] []
        (.mk ⟨2, ['P'], .unlimited, false, []⟩
          [HTree.mk ⟨3, ['K'], .fixed 1, false, []⟩ []]) =
      flatMapL (fun i =>
          (if (2 : Nat) = 2 ∧ containsSeq ("chapter").toList (lowerL ['P'])
            then [hashes 2 ++ ' ' :: ['P'] ++ ' ' :: Nat.toDigits 10 (i + 1)]
            else [hashes 2 ++ ' ' :: ['P']])
          ++ genForest [] ([] ++ [['P']])
              [HTree.mk ⟨3, ['K'], .fixed 1, false, []⟩ []])
        (List.range (effCount [] (joinDot ([] ++ [['P']]))
          Cardinality.unlimited).toNat) :=
  ⟨by simp, by decide,
    (trailing_blank_amended ⟨1, ['P'], .unlimited, false, []⟩
      [HTree.mk ⟨2, ['K'], .fixed 1, false, []⟩ []] [] [] (by simp)
      (by decide)).1 rfl,
    (trailing_blank_amended ⟨2, ['P'], .unlimited, false, []⟩
      [HTree.mk ⟨3, ['K'], .fixed 1, false, []⟩ []] [] [] (by simp)
      (by decide)).2 (by decide)⟩

/-- Counterexample to C6: in the template `- Empty` a worksheet section named
`Empty` exists, yet requesting it raises the section-not-found error, because
the source also raises when the found section content list is empty (falsy). -/
theorem section_not_found_counter :
    parseLlmMd (("- Empty").toList) (some (("Empty").toList)) [] =
      .error (.sectionNotFound (("Empty").toList))
    ∧ parseTemplateStructure (splitOnCh '\n' (pyStripL (("- Empty").toList))) =
      .ok [.worksheetSection (("Empty").toList) []]
    ∧ findSectionStructure [.worksheetSection (("Empty").toList) []]
        (("Empty").toList) = some [] :=
  ⟨rfl, rfl, rfl⟩

/-- Claim C6 as amended: for a template whose structure parses, expand with a
nonempty requested section name raises the section-not-found error exactly
when no worksheet section of that name exists or the first one found has empty
content; in the other direction the worksheet parser never raises, and a
nonempty section name that matches nothing yields the empty record. -/
theorem section_not_found_amended (template s : List Char)
    (q : List (List Char × Int)) (st : List SItem)
    (hs : s ≠ [])
    (hp : parseTemplateStructure (splitOnCh '\n' (pyStripL template)) = .ok st) :
    (parseLlmMd template (some s) q = .error (.sectionNotFound s) ↔
      (findSectionStructure st s = none ∨ findSectionStructure st s = some []))
    ∧ (∀ text sname : List Char, sname ≠ [] →
        dictLookup (pwGo (splitOnCh '\n' (pyStripL text))
          ⟨[], none, [], [], none, []⟩) sname = none →
        parseWorksheetContent text (some sname) = .one none) := by
  constructor
  · unfold parseLlmMd
    rw [show parseTemplateStructure (splitOnCh '\n' (pyStripL template)) = .ok st
      from hp]
    rcases hfind : findSectionStructure st s with _ | c
    · simp [hs, hfind]
    · rcases c with _ | ⟨t, ts⟩
      · simp [hs, hfind]
      · simp [hs, hfind]
  · intro text sname hn hl
    unfold parseWorksheetContent
    simp [hn, hl]

/-- Witness for the amended C6 at the concrete empty-content template. -/
theorem section_not_found_amended_witness :
    (("Empty").toList ≠ [])
    ∧ parseTemplateStructure (splitOnCh '\n' (pyStripL (("- Empty").toList))) =
      .ok [.worksheetSection (("Empty").toList) []]
    ∧ (parseLlmMd (("- Empty").toList) (some (("Empty").toList)) [] =
        .error (.sectionNotFound (("Empty").toList)) ↔
      (findSectionStructure [.worksheetSection (("Empty").toList) []]
          (("Empty").toList) = none ∨
        findSectionStructure [.worksheetSection (("Empty").toList) []]
          (("Empty").toList) = some [])) :=
  ⟨by decide, rfl,
    (section_not_found_amended (("- Empty").toList) (("Empty").toList) []
      [.worksheetSection (("Empty").toList) []] (by decide) rfl).1⟩

theorem dictLookup_dictInsert {α : Type} (m : List (List Char × α))
    (k : List Char) (v : α) : dictLookup (dictInsert m k v) k = some v := by
  induction m with
  | nil => simp [dictInsert, dictLookup, List.find?]
  | cons p rest ih =>
    by_cases hp : p.1 = k
    · have hany : (p :: rest).any (fun x => x.1 == k) = true := by simp [hp]
      simp [dictInsert, hany, dictLookup, List.find?, hp]
    · have hp' : (p.1 == k) = false := by simp [hp]
      cases ha : rest.any (fun x => x.1 == k) with
      | true =>
        have hany : (p :: rest).any (fun x => x.1 == k) = true := by
          simp [List.any_cons, ha]
        simp only [dictInsert, ha] at ih
        simp only [dictInsert, hany, if_true]
        simp only [if_true] at ih
        simpa [dictLookup, List.find?, hp, hp'] using ih
      | false =>
        have hany : (p :: rest).any (fun x => x.1 == k) = false := by
          simp [List.any_cons, hp', ha]
        simp only [dictInsert, ha] at ih
        simp only [dictInsert, hany, Bool.false_eq_true, if_false]
        simp only [Bool.false_eq_true, if_false] at ih
        simpa [dictLookup, List.find?, hp, hp'] using ih

/-- Claim C9: duplicate field commits are last-write-wins.  Every change the
scan loop makes to the open section field mapping is a `dictInsert` of the
committed field (first conjunct), a `dictInsert` always leaves the inserted
key bound to the new value (second conjunct), and the concrete worksheet with
a duplicated `Name` field parses to the value of the last occurrence. -/
theorem duplicate_field_last_wins :
    (∀ (st : PWState) (line : List Char),
      (stepLine st line).curFields = st.curFields ∨
      (stepLine st line).curFields = commitField st)
    ∧ (∀ (m : List (List Char × List Char)) (n v : List Char),
      dictLookup (dictInsert m n v) n = some v)
    ∧ parseWorksheetContent
        (("# S\n---\n### Name |\nA\n### Name |\nB").toList) none =
      .all [(("S").toList,
        ⟨("S").toList, ("# S\n---\n### Name |\nA\n### Name |\nB").toList,
          [(("Name").toList, ("B").toList)]⟩)] := by
  refine ⟨?_, fun m n v => dictLookup_dictInsert m n v, rfl⟩
  intro st line
  unfold stepLine
  split
  · split
    · rcases hw : matchWName line with _ | nm <;> simp [hw]
    · rcases hw : matchWName line with _ | nm <;> simp [hw]
  · split
    · split
      · right; rfl
      · left; rfl
    · left; rfl

/-- Claim C3: the quantity lookup key of a record is its ancestor header
names joined with dots, the enclosing worksheet section name excluded; hence
for root `Parent` with `[*]`-child `Child` inside section `S`, the override
keyed `Parent.Child` with value k yields exactly k `Child` blocks (5 for the
claim instance k = 5). -/
theorem quantity_path_key (k : Int) :
    (parseLlmMd (("- S\n# Parent\n## Child [*]").toList) none
        [(("Parent.Child").toList, k)]).map
      (fun out => countOcc (("## Child | ").toList) (splitOnCh '\n' out)) =
    .ok k.toNat := by
  rcases eq_or_ne k 1 with hk | hk
  · subst hk; rfl
  · have h0 : parseLlmMd (("- S\n# Parent\n## Child [*]").toList) none
        [(("Parent.Child").toList, k)] =
      .ok (generateWorksheet
        [.worksheetSection (("S").toList)
          [HTree.mk ⟨1, ("Parent").toList, .fixed 1, false, []⟩ [],
           HTree.mk ⟨2, ("Child").toList, .unlimited, false, []⟩ []]]
        [(("Parent.Child").toList, k)]) := rfl
    have h2 : genItemOutput [(("Parent.Child").toList, k)] [("Parent").toList]
        (HTree.mk ⟨2, ("Child").toList, .unlimited, false, []⟩ []) =
      List.replicate k.toNat (("## Child | ").toList) := by
      have hq : effCount [(("Parent.Child").toList, k)]
          (joinDot ([("Parent").toList] ++ [("Child").toList]))
          Cardinality.unlimited = k := rfl
      simp only [genItemOutput, hq, if_neg hk, List.isEmpty_nil, if_true,
        flatMapL_const_single, List.length_range]
      rfl
    have h1 : generateWorksheet
        [.worksheetSection (("S").toList)
          [HTree.mk ⟨1, ("Parent").toList, .fixed 1, false, []⟩ [],
           HTree.mk ⟨2, ("Child").toList, .unlimited, false, []⟩ []]]
        [(("Parent.Child").toList, k)] =
      joinNl ([("# S").toList, ("---").toList, ("# Parent").toList, []] ++
        List.replicate k.toNat (("## Child | ").toList)) := by
      show joinNl _ = _
      rw [show (List.foldl (gwStep [(("Parent.Child").toList, k)]) []
          [SItem.worksheetSection (("S").toList)
            [HTree.mk ⟨1, ("Parent").toList, .fixed 1, false, []⟩ [],
             HTree.mk ⟨2, ("Child").toList, .unlimited, false, []⟩ []]]) =
        ("# S").toList :: ("---").toList :: ("# Parent").toList :: [] ::
          ((genItemOutput [(("Parent.Child").toList, k)] [("Parent").toList]
            (HTree.mk ⟨2, ("Child").toList, .unlimited, false, []⟩ []) ++ []) ++ []) from rfl]
      rw [List.append_nil, List.append_nil, h2]
      rfl
    rw [h0, h1]
    simp only [Except.map, joinNl]
    rw [splitOnCh_joinWith '\n' _ (by simp) ?memh]
    case memh =>
      intro l hl
      simp only [List.mem_append, List.mem_cons, List.not_mem_nil, or_false] at hl
      rcases hl with (h | h | h | h) | h
      · subst h; decide
      · subst h; decide
      · subst h; decide
      · subst h; decide
      · rw [List.eq_of_mem_replicate h]; decide
    rw [countOcc_append, countOcc_replicate_self]
    rw [show countOcc (("## Child | ").toList)
        [("# S").toList, ("---").toList, ("# Parent").toList, []] = 0 from by decide]
    simp

/-- Specification-side hierarchy builder following the claim: each record
takes as children the maximal run of subsequent finished roots with strictly
greater level, so every record becomes a child of the nearest preceding
record with a strictly smaller level, and a root when none exists. -/
def spanBuild : List HTree → List HTree
  | [] => []
  | x :: xs =>
    HTree.mk (HTree.info x)
        (HTree.kids x ++
          (spanBuild xs).takeWhile (fun t => HTree.lvl x < HTree.lvl t))
      :: (spanBuild xs).dropWhile (fun t => HTree.lvl x < HTree.lvl t)

/-- Descent used to interpret an intermediate builder state: finish the
carried node, hand each remaining stack entry its accumulated children, the
carried node, and the forest prefix of strictly greater level. -/
def mergeDown (node : HTree) (forest : List HTree) :
    List (HTree × List HTree) → List HTree
  | [] => node :: forest
  | (p, pk) :: rest =>
    mergeDown
      (HTree.mk (HTree.info p)
        (HTree.kids p ++
          (pk ++ [node] ++ forest.takeWhile (fun t => HTree.lvl p < HTree.lvl t))))
      (forest.dropWhile (fun t => HTree.lvl p < HTree.lvl t)) rest

/-- Interpretation of an intermediate builder state: the finished roots, then
the stack drained against a forest of already-built roots. -/
def mergeStack (roots : List HTree) (stack : List (HTree × List HTree))
    (forest : List HTree) : List HTree :=
  match stack with
  | [] => roots ++ forest
  | (h, kids) :: rest =>
    roots ++
      mergeDown
        (HTree.mk (HTree.info h)
          (HTree.kids h ++
            (kids ++ forest.takeWhile (fun t => HTree.lvl h < HTree.lvl t))))
        (forest.dropWhile (fun t => HTree.lvl h < HTree.lvl t)) rest

theorem popDown_shape (lvl : Nat) :
    ∀ (rest : List (HTree × List HTree)) (node : HTree),
    (∃ nfin, popDown lvl node rest = (some nfin, [])) ∨
    (∃ p pk2 rest3, popDown lvl node rest = (none, (p, pk2) :: rest3)) := by
  intro rest
  induction rest with
  | nil => intro node; exact Or.inl ⟨node, rfl⟩
  | cons e rest ih =>
    intro node
    rcases e with ⟨p, pk⟩
    by_cases hp : lvl ≤ HTree.lvl p
    · rcases ih (HTree.mk (HTree.info p) (HTree.kids p ++ (pk ++ [node]))) with
        ⟨nfin, hf⟩ | ⟨a, b, c, hf⟩
      · exact Or.inl ⟨nfin, by simpa [popDown, hp] using hf⟩
      · exact Or.inr ⟨a, b, c, by simpa [popDown, hp] using hf⟩
    · exact Or.inr ⟨p, pk ++ [node], rest, by simp [popDown, hp]⟩

theorem mergeDown_zero :
    ∀ (rest : List (HTree × List HTree)) (node : HTree),
    mergeDown node [] rest =
      (match (popDown 0 node rest).1 with
       | some n => [n]
       | none => []) := by
  intro rest
  induction rest with
  | nil => intro node; simp [mergeDown, popDown]
  | cons e rest ih =>
    intro node
    rcases e with ⟨p, pk⟩
    rw [show mergeDown node [] ((p, pk) :: rest) =
        mergeDown (HTree.mk (HTree.info p)
          (HTree.kids p ++ (pk ++ [node] ++ []))) [] rest from rfl]
    rw [ih]
    simp [popDown, Nat.zero_le]

theorem drain_eq (stack : List (HTree × List HTree)) (roots : List HTree) :
    (popGE 0 roots stack).1 = mergeStack roots stack [] := by
  rcases stack with _ | ⟨⟨h, kids⟩, rest⟩
  · simp [popGE, mergeStack]
  · rw [show (popGE 0 roots ((h, kids) :: rest)).1 =
        roots ++ (match (popDown 0
          (HTree.mk (HTree.info h) (HTree.kids h ++ kids)) rest).1 with
          | some n => [n]
          | none => []) from by simp [popGE, Nat.zero_le]]
    rw [← mergeDown_zero]
    simp [mergeStack]

theorem mergeDown_cons :
    ∀ (rest : List (HTree × List HTree)) (node0 node : HTree) (F : List HTree),
    mergeDown node0 (node :: F) rest =
      (match popDown (HTree.lvl node) node0 rest with
       | (some nfin, _) => nfin :: node :: F
       | (none, []) => node :: F
       | (none, (p, pk2) :: rest3) =>
          mergeDown
            (HTree.mk (HTree.info p)
              (HTree.kids p ++
                (pk2 ++ [node] ++
                  F.takeWhile (fun t => HTree.lvl p < HTree.lvl t))))
            (F.dropWhile (fun t => HTree.lvl p < HTree.lvl t)) rest3) := by
  intro rest
  induction rest with
  | nil => intro node0 node F; rfl
  | cons e rest ih =>
    intro node0 node F
    rcases e with ⟨p, pk⟩
    by_cases hp : HTree.lvl node ≤ HTree.lvl p
    · have hnlt : ¬(HTree.lvl p < HTree.lvl node) := Nat.not_lt.mpr hp
      rw [show mergeDown node0 (node :: F) ((p, pk) :: rest) =
          mergeDown (HTree.mk (HTree.info p)
            (HTree.kids p ++ (pk ++ [node0] ++
              (node :: F).takeWhile (fun t => HTree.lvl p < HTree.lvl t))))
            ((node :: F).dropWhile (fun t => HTree.lvl p < HTree.lvl t))
            rest from rfl]
      rw [List.takeWhile_cons, List.dropWhile_cons]
      simp only [hnlt, decide_eq_true_eq, if_false]
      rw [ih]
      rw [show popDown (HTree.lvl node) node0 ((p, pk) :: rest) =
          popDown (HTree.lvl node)
            (HTree.mk (HTree.info p) (HTree.kids p ++ (pk ++ [node0]))) rest
          from by simp [popDown, hp]]
      rw [show HTree.mk (HTree.info p) (HTree.kids p ++ (pk ++ [node0] ++ [])) =
          HTree.mk (HTree.info p) (HTree.kids p ++ (pk ++ [node0])) from by simp]
    · have hlt : HTree.lvl p < HTree.lvl node := Nat.not_le.mp hp
      rw [show mergeDown node0 (node :: F) ((p, pk) :: rest) =
          mergeDown (HTree.mk (HTree.info p)
            (HTree.kids p ++ (pk ++ [node0] ++
              (node :: F).takeWhile (fun t => HTree.lvl p < HTree.lvl t))))
            ((node :: F).dropWhile (fun t => HTree.lvl p < HTree.lvl t))
            rest from rfl]
      rw [List.takeWhile_cons, List.dropWhile_cons]
      simp only [hlt, decide_eq_true_eq, if_true]
      rw [show popDown (HTree.lvl node) node0 ((p, pk) :: rest) =
          (none, (p, pk ++ [node0]) :: rest) from by simp [popDown, hp]]
      rw [List.append_cons (pk ++ [node0]) node]

theorem merge_cons (stack : List (HTree × List HTree)) (roots : List HTree)
    (node : HTree) (F : List HTree) :
    mergeStack roots stack (node :: F) =
      (match popGE (HTree.lvl node) roots stack with
       | (r2, []) => r2 ++ node :: F
       | (r2, (p, pk) :: rest3) => mergeStack r2 ((p, pk ++ [node]) :: rest3) F) := by
  rcases stack with _ | ⟨⟨h, kids⟩, rest⟩
  · rfl
  · by_cases hcmp : HTree.lvl node ≤ HTree.lvl h
    · have hnlt : ¬(HTree.lvl h < HTree.lvl node) := Nat.not_lt.mpr hcmp
      rw [show mergeStack roots ((h, kids) :: rest) (node :: F) =
          roots ++ mergeDown (HTree.mk (HTree.info h)
            (HTree.kids h ++ (kids ++
              (node :: F).takeWhile (fun t => HTree.lvl h < HTree.lvl t))))
            ((node :: F).dropWhile (fun t => HTree.lvl h < HTree.lvl t)) rest
          from rfl]
      rw [List.takeWhile_cons, List.dropWhile_cons]
      simp only [hnlt, decide_eq_true_eq, if_false]
      rw [show HTree.mk (HTree.info h) (HTree.kids h ++ (kids ++ [])) =
          HTree.mk (HTree.info h) (HTree.kids h ++ kids) from by simp]
      rw [mergeDown_cons]
      rcases popDown_shape (HTree.lvl node) rest
          (HTree.mk (HTree.info h) (HTree.kids h ++ kids)) with
        ⟨nfin, hpd⟩ | ⟨p, pk2, rest3, hpd⟩
      · rw [hpd]
        rw [show popGE (HTree.lvl node) roots ((h, kids) :: rest) =
            (roots ++ [nfin], []) from by simp [popGE, hcmp, hpd]]
        simp
      · rw [hpd]
        rw [show popGE (HTree.lvl node) roots ((h, kids) :: rest) =
            (roots, (p, pk2) :: rest3) from by simp [popGE, hcmp, hpd]]
        rfl
    · have hlt : HTree.lvl h < HTree.lvl node := Nat.not_le.mp hcmp
      rw [show popGE (HTree.lvl node) roots ((h, kids) :: rest) =
          (roots, (h, kids) :: rest) from by simp [popGE, hcmp]]
      rw [show mergeStack roots ((h, kids) :: rest) (node :: F) =
          roots ++ mergeDown (HTree.mk (HTree.info h)
            (HTree.kids h ++ (kids ++
              (node :: F).takeWhile (fun t => HTree.lvl h < HTree.lvl t))))
            ((node :: F).dropWhile (fun t => HTree.lvl h < HTree.lvl t)) rest
          from rfl]
      rw [List.takeWhile_cons, List.dropWhile_cons]
      simp only [hlt, decide_eq_true_eq, if_true]
      rw [show mergeStack roots ((h, kids ++ [node]) :: rest) F =
          roots ++ mergeDown (HTree.mk (HTree.info h)
            (HTree.kids h ++ (kids ++ [node] ++
              F.takeWhile (fun t => HTree.lvl h < HTree.lvl t))))
            (F.dropWhile (fun t => HTree.lvl h < HTree.lvl t)) rest
          from rfl]
      rw [show HTree.mk (HTree.info h) (HTree.kids h ++
            (kids ++ (node :: F.takeWhile (fun t => HTree.lvl h < HTree.lvl t)))) =
          HTree.mk (HTree.info h) (HTree.kids h ++
            (kids ++ [node] ++
              F.takeWhile (fun t => HTree.lvl h < HTree.lvl t))) from by simp]

theorem buildH_eq_span_aux : ∀ (items : List HTree) (roots : List HTree)
    (stack : List (HTree × List HTree)),
    (popGE 0 (List.foldl hierStep (roots, stack) items).1
      (List.foldl hierStep (roots, stack) items).2).1
      = mergeStack roots stack (spanBuild items) := by
  intro items
  induction items with
  | nil =>
    intro roots stack
    simp only [List.foldl_nil, spanBuild]
    exact drain_eq stack roots
  | cons x xs ih =>
    intro roots stack
    rw [List.foldl_cons]
    rw [show hierStep (roots, stack) x =
        ((popGE (HTree.lvl x) roots stack).1,
          (x, []) :: (popGE (HTree.lvl x) roots stack).2) from rfl]
    rw [ih]
    rw [show spanBuild (x :: xs) =
        HTree.mk (HTree.info x) (HTree.kids x ++
          (spanBuild xs).takeWhile (fun t => HTree.lvl x < HTree.lvl t))
        :: (spanBuild xs).dropWhile (fun t => HTree.lvl x < HTree.lvl t)
      from rfl]
    rw [merge_cons]
    have hl : HTree.lvl (HTree.mk (HTree.info x) (HTree.kids x ++
        (spanBuild xs).takeWhile (fun t => HTree.lvl x < HTree.lvl t))) =
        HTree.lvl x := rfl
    rw [hl]
    rcases hS : popGE (HTree.lvl x) roots stack with ⟨r2, st2⟩
    rcases st2 with _ | ⟨⟨p, pk⟩, r3⟩
    · rfl
    · rfl

theorem buildHierarchy_eq_spanBuild (items : List HTree) :
    buildHierarchy items = spanBuild items := by
  have h := buildH_eq_span_aux items [] []
  simpa [buildHierarchy, mergeStack] using h

/-- Claim C8: the stack-based hierarchy builder attaches each incoming record
as a child of the nearest preceding record with a strictly smaller level, and
makes it a root when none exists: it coincides with the recursive
nearest-smaller-parent characterization `spanBuild` on every flat ordered
record sequence; in particular a level-3 record directly following a level-1
record becomes its child although no level-2 record exists. -/
theorem hierarchy_nearest_smaller_parent :
    (∀ items : List HTree, buildHierarchy items = spanBuild items)
    ∧ buildHierarchy
        [.mk ⟨1, ['a'], .fixed 1, false, []⟩ [],
         .mk ⟨3, ['b'], .fixed 1, false, []⟩ []]
      = [.mk ⟨1, ['a'], .fixed 1, false, []⟩
          [.mk ⟨3, ['b'], .fixed 1, false, []⟩ []]] := by
  constructor
  · exact buildHierarchy_eq_spanBuild
  · rfl



/-- Counterexample to C1: the expansion of a bare depth-1 required leaf
template contains no section boundary, so the worksheet parser finds no
section at all and returns the empty mapping, with no fields mapping for the
leaf names. -/
theorem roundtrip_counter :
    parseLlmMd (("# Name [1] $").toList) none [] = .ok (("# Name | \n").toList)
    ∧ parseWorksheetContent (("# Name | \n").toList) none = .all [] :=
  ⟨rfl, rfl⟩

/-- Name well-formedness for the round-trip theorem: nonempty, trimmed, and
free of the pipe, bracket, dollar and newline characters reserved by the
header grammar. -/
def goodName (cs : List Char) : Bool :=
  match cs.head?, cs.getLast? with
  | some a, some b =>
    !isPyWs a && !isPyWs b &&
      cs.all (fun c => !(c == '|' || c == '[' || c == '$' || c == '\n'))
  | _, _ => false

/-- Template line of one depth-1 required leaf field. -/
def leafTemplateLine (n : List Char) : List Char :=
  '#' :: ' ' :: (n ++ (" [1] $").toList)

/-- Round-trip template: one worksheet-section marker line followed by
depth-1 required leaf fields. -/
def c1Template (s : List Char) (names : List (List Char)) : List Char :=
  joinNl (('-' :: ' ' :: s) :: names.map leafTemplateLine)

/-- Fresh worksheet line of one leaf field. -/
def leafOutLine (n : List Char) : List Char :=
  '#' :: ' ' :: (n ++ (" | ").toList)

/-- Expected expansion of the round-trip template. -/
def c1Output (s : List Char) (names : List (List Char)) : List Char :=
  joinNl (('#' :: ' ' :: s) :: ("---").toList ::
    flatMapL (fun n => [leafOutLine n, []]) names)

theorem goodName_ne_nil {n : List Char} (h : goodName n = true) : n ≠ [] := by
  intro hh; subst hh; simp [goodName] at h

theorem goodName_head {n : List Char} (h : goodName n = true) :
    ∀ a, n.head? = some a → isPyWs a = false := by
  intro a ha
  unfold goodName at h
  rw [ha] at h
  rcases hl : n.getLast? with _ | b <;> rw [hl] at h <;> simp_all

theorem goodName_last {n : List Char} (h : goodName n = true) :
    ∀ a, n.getLast? = some a → isPyWs a = false := by
  intro a ha
  unfold goodName at h
  rw [ha] at h
  rcases hl : n.head? with _ | b <;> rw [hl] at h <;> simp_all

theorem goodName_mem {n : List Char} (h : goodName n = true) :
    ∀ c ∈ n, c ≠ '|' ∧ c ≠ '[' ∧ c ≠ '$' ∧ c ≠ '\n' := by
  intro c hc
  unfold goodName at h
  rcases hh : n.head? with _ | a <;> rw [hh] at h
  · simp at h
  · rcases hl : n.getLast? with _ | b <;> rw [hl] at h
    · simp at h
    · simp only [Bool.and_eq_true, List.all_eq_true] at h
      have := h.2 c hc
      simp only [Bool.not_eq_true', Bool.or_eq_false_iff, beq_eq_false_iff_ne] at this
      exact ⟨this.1.1.1, this.1.1.2, this.1.2, this.2⟩

theorem dropWhile_ws_id {cs : List Char}
    (h : ∀ a, cs.head? = some a → isPyWs a = false) :
    List.dropWhile isPyWs cs = cs := by
  cases cs with
  | nil => rfl
  | cons a t => simp [List.dropWhile_cons, h a rfl]

theorem pyStripL_id {cs : List Char}
    (h1 : ∀ a, cs.head? = some a → isPyWs a = false)
    (h2 : ∀ a, cs.getLast? = some a → isPyWs a = false) :
    pyStripL cs = cs := by
  unfold pyStripL
  rw [dropWhile_ws_id h1]
  rw [dropWhile_ws_id (by
    intro a ha
    rw [List.head?_reverse] at ha
    exact h2 a ha)]
  exact List.reverse_reverse cs

theorem pyStripL_cons_ws {c : Char} {cs : List Char} (h : isPyWs c = true) :
    pyStripL (c :: cs) = pyStripL cs := by
  unfold pyStripL
  rw [List.dropWhile_cons, if_pos h]

theorem dropWhile_ws_all {W : List Char} (hW : ∀ c ∈ W, isPyWs c = true) :
    ∀ m, List.dropWhile isPyWs (W ++ m) = List.dropWhile isPyWs m := by
  induction W with
  | nil => intro m; rfl
  | cons c w ih =>
    intro m
    rw [List.cons_append, List.dropWhile_cons, if_pos (hW c (by simp))]
    exact ih (fun x hx => hW x (by simp [hx])) m

theorem pyStripL_ws_suffix {a : Char} {Y W : List Char}
    (ha : isPyWs a = false) (hW : ∀ c ∈ W, isPyWs c = true) :
    pyStripL ((a :: Y) ++ W) = pyStripL (a :: Y) := by
  unfold pyStripL
  rw [@dropWhile_ws_id ((a :: Y) ++ W)
    (by intro x hx; simp at hx; rw [← hx]; exact ha)]
  rw [@dropWhile_ws_id (a :: Y)
    (by intro x hx; simp at hx; rw [← hx]; exact ha)]
  rw [List.reverse_append]
  rw [dropWhile_ws_all (fun c hc => hW c (by simpa using hc))]

theorem matchAfterName_none {r : List Char} {c : Char} {t : List Char}
    (hsk : skipWs r = c :: t) (h1 : c ≠ '[') (h2 : c ≠ '$') (h3 : c ≠ '|') :
    matchAfterName r = none := by
  have hr : r ≠ [] := by
    intro h
    rw [h] at hsk
    simp [skipWs] at hsk
  unfold matchAfterName bracketAlts dollarAlts pipeAlts
  simp [hsk, h1, h2, h3, List.findSome?, hr]

theorem skipWs_append_exists {u : List Char} (v : List Char)
    (hx : ∃ x ∈ u, isPyWs x = false) :
    ∃ c t, skipWs (u ++ v) = c :: (t ++ v) ∧ isPyWs c = false ∧ c ∈ u := by
  induction u with
  | nil => simp at hx
  | cons a u ih =>
    by_cases ha : isPyWs a
    · rcases hx with ⟨x, hxm, hxw⟩
      rcases hxm with _ | hxm2
      · rw [hxw] at ha; simp at ha
      · rcases ih ⟨x, by assumption, hxw⟩ with ⟨c, t, hc1, hc2, hc3⟩
        exact ⟨c, t, by simp [skipWs, List.dropWhile_cons, ha] at hc1 ⊢; exact hc1,
          hc2, by simp [hc3]⟩
    · exact ⟨a, u, by simp [skipWs, List.dropWhile_cons, ha],
        by simp [ha], by simp⟩

theorem matchBody_leaf : ∀ (suf acc : List Char), suf ≠ [] →
    (∀ c ∈ suf, c ≠ '|' ∧ c ≠ '[' ∧ c ≠ '$') →
    (∀ a, suf.getLast? = some a → isPyWs a = false) →
    matchBody acc (suf ++ (" [1] $").toList) =
      some (acc ++ suf, some (("[1]").toList), true, []) := by
  intro suf
  induction suf with
  | nil => intro acc h _ _; exact absurd rfl h
  | cons c suf2 ih =>
    intro acc _ hok hlast
    have hc := hok c (by simp)
    rcases suf2 with _ | ⟨c2, suf3⟩
    · rw [show ([c] ++ (" [1] $").toList) = c :: (" [1] $").toList from rfl]
      rw [matchBody]
      simp only [hc.1, hc.2.1, hc.2.2, Bool.or_self, if_false]
      rfl
    · have hlast2 : ∀ a, (c2 :: suf3).getLast? = some a → isPyWs a = false := by
        intro a ha
        apply hlast
        rw [List.getLast?_cons_cons]
        exact ha
      have hex : ∃ x ∈ (c2 :: suf3), isPyWs x = false := by
        rcases hl : (c2 :: suf3).getLast? with _ | b
        · simp at hl
        · exact ⟨b, by
            have := List.mem_getLast?_eq_getLast (l := c2 :: suf3) (x := b) hl
            rcases this with ⟨hh, hbb⟩
            rw [hbb]; exact List.getLast_mem hh, hlast2 b hl⟩
      rcases skipWs_append_exists ((" [1] $").toList) hex with ⟨d, t, hd1, hd2, hd3⟩
      have hdok := hok d (by simp [hd3])
      rw [show ((c :: c2 :: suf3) ++ (" [1] $").toList) =
        c :: ((c2 :: suf3) ++ (" [1] $").toList) from rfl]
      rw [matchBody]
      simp only [hc.1, hc.2.1, hc.2.2, Bool.or_self, if_false]
      rw [matchAfterName_none hd1 hdok.2.1 hdok.2.2 hdok.1]
      rw [ih (acc ++ [c]) (by simp) (fun x hx => hok x (by simp [hx])) hlast2]
      simp

theorem parseHeaderLine_leaf (n : List Char) (hn : goodName n = true) :
    parseHeaderLine (leafTemplateLine n) = .ok ⟨1, n, .fixed 1, true, []⟩ := by
  rcases hne : n with _ | ⟨a, t⟩
  · exact absurd hne (goodName_ne_nil hn)
  rw [← hne]
  have hhead : ∀ x, n.head? = some x → isPyWs x = false := goodName_head hn
  have hA : isPyWs a = false := by
    apply hhead; rw [hne]; rfl
  unfold parseHeaderLine leafTemplateLine
  rw [show ('#' :: ' ' :: (n ++ (" [1] $").toList)).takeWhile (· = '#') = ['#']
    from by rw [hne]; rfl]
  simp only [List.length_singleton]
  rw [show List.drop 1 ('#' :: ' ' :: (n ++ (" [1] $").toList)) =
    ' ' :: (n ++ (" [1] $").toList) from rfl]
  rw [pyStripL_cons_ws (by rfl)]
  rw [pyStripL_id (by
      intro x hx
      rw [hne] at hx
      simp at hx
      rw [← hx]; exact hA)
    (by
      intro x hx
      rw [List.getLast?_append_of_ne_nil _ (by simp)] at hx
      rw [show ((" [1] $").toList).getLast? = some '$' from rfl] at hx
      simp at hx
      rw [← hx]; rfl)]
  rw [matchBody_leaf n [] (goodName_ne_nil hn)
    (fun c hc => ⟨(goodName_mem hn c hc).1, (goodName_mem hn c hc).2.1,
      (goodName_mem hn c hc).2.2.1⟩)
    (goodName_last hn)]
  rw [List.nil_append]
  show (Except.ok ⟨1, pyStripL n, .fixed 1, true, []⟩ :
    Except PyErr HeaderData) = _
  rw [pyStripL_id (goodName_head hn) (goodName_last hn)]


theorem joinWith_ne_nil (sep : Char) (l : List Char) (ls : List (List Char))
    (h : l ≠ []) : joinWith sep (l :: ls) ≠ [] := by
  cases ls with
  | nil => simpa [joinWith] using h
  | cons l2 ls2 => simp [joinWith, List.append_eq_nil, h]

theorem getLast?_joinWith (sep : Char) : ∀ (ls : List (List Char))
    (l : List Char), (∀ x ∈ ls, x ≠ []) → ls.getLast? = some l →
    (joinWith sep ls).getLast? = l.getLast? := by
  intro ls
  induction ls with
  | nil => intro l _ hl; simp at hl
  | cons x ls2 ih =>
    intro l hne hl
    cases ls2 with
    | nil =>
      simp at hl
      subst hl
      rfl
    | cons x2 ls3 =>
      rw [List.getLast?_cons_cons] at hl
      rw [joinWith]
      rw [List.getLast?_append_of_ne_nil _ (by simp)]
      have hJ : joinWith sep (x2 :: ls3) ≠ [] :=
        joinWith_ne_nil sep x2 ls3 (hne x2 (by simp))
      rcases hJe : joinWith sep (x2 :: ls3) with _ | ⟨j, js⟩
      · exact absurd hJe hJ
      · rw [List.getLast?_cons_cons]
        rw [← hJe]
        exact ih l (fun y hy => hne y (by simp [hy])) hl

theorem c1Template_strip (s : List Char) (names : List (List Char))
    (hs : goodName s = true) (hn : ∀ n ∈ names, goodName n = true) :
    pyStripL (c1Template s names) = c1Template s names := by
  apply pyStripL_id
  · intro a ha
    unfold c1Template at ha
    rcases names with _ | ⟨n, ns⟩
    · simp [joinWith, joinNl] at ha
      rw [← ha]; rfl
    · simp [joinWith, joinNl, List.map_cons] at ha
      rw [← ha]; rfl
  · intro a ha
    unfold c1Template joinNl at ha
    rcases List.eq_nil_or_concat names with rfl | ⟨ns0, nl, hcat⟩
    · rw [getLast?_joinWith '\n' _ ('-' :: ' ' :: s)
        (by intro x hx; simp at hx; subst hx; simp) (by simp)] at ha
      rw [show ('-' :: ' ' :: s) = ['-', ' '] ++ s from rfl] at ha
      rw [List.getLast?_append_of_ne_nil _ (goodName_ne_nil hs)] at ha
      exact goodName_last hs a ha
    · subst hcat
      rw [List.concat_eq_append] at ha
      rw [getLast?_joinWith '\n' _ (leafTemplateLine nl)
        (by
          intro x hx
          simp only [List.mem_cons] at hx
          rcases hx with rfl | hx
          · simp
          · rcases List.mem_map.mp hx with ⟨y, _, hy⟩
            rw [← hy]
            simp [leafTemplateLine])
        (by
          rw [show ('-' :: ' ' :: s) :: (ns0 ++ [nl]).map leafTemplateLine =
            (('-' :: ' ' :: s) :: ns0.map leafTemplateLine) ++
              [leafTemplateLine nl] from by simp]
          exact List.getLast?_concat _)] at ha
      rw [show leafTemplateLine nl =
        ('#' :: ' ' :: nl) ++ (" [1] $").toList from by
          simp [leafTemplateLine]] at ha
      rw [List.getLast?_append_of_ne_nil _ (by simp)] at ha
      rw [show ((" [1] $").toList).getLast? = some '$' from rfl] at ha
      simp at ha
      rw [← ha]; rfl

theorem pyStripL_leafTemplateLine (n : List Char) :
    pyStripL (leafTemplateLine n) = leafTemplateLine n := by
  apply pyStripL_id
  · intro a ha
    simp [leafTemplateLine] at ha
    rw [← ha]; rfl
  · intro a ha
    rw [show leafTemplateLine n =
      ('#' :: ' ' :: n) ++ (" [1] $").toList from by simp [leafTemplateLine]] at ha
    rw [List.getLast?_append_of_ne_nil _ (by simp)] at ha
    rw [show ((" [1] $").toList).getLast? = some '$' from rfl] at ha
    simp at ha
    rw [← ha]; rfl

theorem ptsGo_leaves : ∀ (names : List (List Char)),
    (∀ n ∈ names, goodName n = true) →
    ∀ (done : List SItem) (sn : List Char) (c : List HTree),
    ptsGo (names.map leafTemplateLine) done (some (sn, c)) =
      .ok (done ++ [.worksheetSection sn
        (c ++ names.map (fun n => HTree.mk ⟨1, n, .fixed 1, true, []⟩ []))]) := by
  intro names
  induction names with
  | nil => intro _ done sn c; simp [ptsGo]
  | cons n ns ih =>
    intro hn done sn c
    rw [List.map_cons, ptsGo, pyStripL_leafTemplateLine]
    rw [if_neg (by simp [leafTemplateLine])]
    rw [if_neg (by simp [List.isPrefixOf, leafTemplateLine])]
    rw [if_pos (by simp [List.isPrefixOf, leafTemplateLine])]
    rw [parseHeaderLine_leaf n (hn n (by simp))]
    show ptsGo (List.map leafTemplateLine ns) done
      (some (sn, c ++ [HTree.mk ⟨1, n, .fixed 1, true, []⟩ []])) = _
    rw [ih (fun x hx => hn x (by simp [hx])) done sn
      (c ++ [HTree.mk ⟨1, n, .fixed 1, true, []⟩ [] ])]
    simp

theorem c1Template_parse (s : List Char) (names : List (List Char))
    (hs : goodName s = true) (hn : ∀ n ∈ names, goodName n = true) :
    parseTemplateStructure (splitOnCh '\n' (pyStripL (c1Template s names))) =
      .ok [.worksheetSection s
        (names.map (fun n => HTree.mk ⟨1, n, .fixed 1, true, []⟩ []))] := by
  rw [c1Template_strip s names hs hn]
  rw [show c1Template s names =
    joinWith '\n' (('-' :: ' ' :: s) :: names.map leafTemplateLine) from rfl]
  rw [splitOnCh_joinWith '\n' _ (by simp) (by
    intro l hl
    simp only [List.mem_cons] at hl
    rcases hl with rfl | hl
    · simp only [List.mem_cons, not_or]
      refine ⟨by decide, by decide, ?_⟩
      exact fun hc => absurd rfl ((goodName_mem hs '\n' hc).2.2.2)
    · rcases List.mem_map.mp hl with ⟨y, hy, hl2⟩
      rw [← hl2]
      unfold leafTemplateLine
      simp only [List.mem_cons, List.mem_append, not_or]
      refine ⟨by decide, by decide, ?_, by decide⟩
      exact fun hc => absurd rfl ((goodName_mem (hn y hy) '\n' hc).2.2.2))]
  unfold parseTemplateStructure
  rw [ptsGo]
  rw [show pyStripL ('-' :: ' ' :: s) = '-' :: ' ' :: s from by
    apply pyStripL_id
    · intro a ha; simp at ha; rw [← ha]; rfl
    · intro a ha
      rw [show ('-' :: ' ' :: s) = ['-', ' '] ++ s from rfl] at ha
      rw [List.getLast?_append_of_ne_nil _ (goodName_ne_nil hs)] at ha
      exact goodName_last hs a ha]
  rw [if_neg (by simp)]
  rw [if_pos (by simp [List.isPrefixOf])]
  rw [show pyStripL (List.drop 2 ('-' :: ' ' :: s)) = s from by
    rw [show List.drop 2 ('-' :: ' ' :: s) = s from rfl]
    exact pyStripL_id (goodName_head hs) (goodName_last hs)]
  show ptsGo (List.map leafTemplateLine names) [] (some (s, [])) = _
  rw [ptsGo_leaves names hn [] s []]
  simp

theorem spanBuild_leaves (names : List (List Char)) :
    spanBuild (names.map (fun n => HTree.mk ⟨1, n, .fixed 1, true, []⟩ [])) =
      names.map (fun n => HTree.mk ⟨1, n, .fixed 1, true, []⟩ []) := by
  induction names with
  | nil => rfl
  | cons n ns ih =>
    rw [List.map_cons, spanBuild, ih]
    rcases ns with _ | ⟨m, ms⟩
    · simp [HTree.kids, HTree.info]
    · rw [List.map_cons]
      simp [List.takeWhile_cons, List.dropWhile_cons, HTree.lvl, HTree.info,
        HTree.kids]

theorem genForest_leaves (names : List (List Char)) :
    genForest [] [] (names.map (fun n => HTree.mk ⟨1, n, .fixed 1, true, []⟩ [])) =
      flatMapL (fun n => [leafOutLine n, []]) names := by
  induction names with
  | nil => rfl
  | cons n ns ih =>
    rw [List.map_cons, genForest, ih, flatMapL]
    congr 1

theorem c1_expand (s : List Char) (names : List (List Char))
    (hs : goodName s = true) (hn : ∀ n ∈ names, goodName n = true) :
    parseLlmMd (c1Template s names) none [] = .ok (c1Output s names) := by
  unfold parseLlmMd
  rw [c1Template_parse s names hs hn]
  show Except.ok (generateWorksheet
    [.worksheetSection s
      (names.map (fun n => HTree.mk ⟨1, n, .fixed 1, true, []⟩ []))] []) = _
  unfold generateWorksheet c1Output
  congr 1
  simp only [List.foldl_cons, List.foldl_nil, gwStep]
  rw [buildHierarchy_eq_spanBuild, spanBuild_leaves, genForest_leaves]
  simp

/-- Stripped form of a generated leaf line (the trailing space removed). -/
def leafStripped (n : List Char) : List Char :=
  '#' :: ' ' :: (n ++ (" |").toList)

theorem findPipeIdx_append {xs : List Char} (ys : List Char)
    (hx : '|' ∉ xs) : findPipeIdx (xs ++ '|' :: ys) = some xs.length := by
  induction xs with
  | nil => simp [findPipeIdx]
  | cons c t ih =>
    simp only [List.mem_cons, not_or] at hx
    rw [List.cons_append, findPipeIdx,
      if_neg (fun hh => hx.1 hh.symm), ih hx.2]
    rfl

theorem takeWhile_ws_append_head {n : List Char} (X : List Char)
    (h : ∀ a, n.head? = some a → isPyWs a = false) (hne : n ≠ []) :
    (n ++ X).takeWhile isPyWs = [] := by
  rcases n with _ | ⟨a, t⟩
  · exact absurd rfl hne
  · rw [List.cons_append, List.takeWhile_cons, if_neg (by simp [h a rfl])]

theorem take_len_plus : ∀ (u v : List Char) (k : Nat),
    (u ++ v).take (u.length + k) = u ++ v.take k := by
  intro u
  induction u with
  | nil => intro v k; simp
  | cons c t ih => intro v k; simp [List.take_cons, ih, Nat.succ_add]

theorem takeWhile_ws_reverse_nil {n : List Char}
    (h : ∀ a, n.getLast? = some a → isPyWs a = false) :
    n.reverse.takeWhile isPyWs = [] := by
  rcases hr : n.reverse with _ | ⟨b, rb⟩
  · rfl
  · rw [List.takeWhile_cons, if_neg (by
      simp only [Bool.not_eq_true]
      apply h
      rw [← List.head?_reverse, hr]
      rfl)]

theorem matchWName_leafStripped (n : List Char) (hn : goodName n = true) :
    matchWName (leafStripped n) = some n := by
  rcases hne : n with _ | ⟨a, t⟩
  · exact absurd hne (goodName_ne_nil hn)
  rw [← hne]
  unfold matchWName leafStripped
  rw [show ('#' :: ' ' :: (n ++ (" |").toList)).takeWhile (· = '#') = ['#']
    from rfl]
  rw [show (['#'] : List Char).length = 1 from rfl]
  rw [tryH]
  rw [show List.drop (0 + 1) ('#' :: ' ' :: (n ++ (" |").toList)) =
    ' ' :: (n ++ (" |").toList) from rfl]
  rw [show (' ' :: (n ++ (" |").toList)).takeWhile isPyWs =
      ' ' :: ((n ++ (" |").toList).takeWhile isPyWs) from by
    rw [List.takeWhile_cons]; rfl]
  rw [takeWhile_ws_append_head _ (goodName_head hn) (goodName_ne_nil hn)]
  rw [show ([' '] : List Char).length = 1 from rfl]
  rw [tryA, tryAt]
  rw [show List.drop (0 + 1) (' ' :: (n ++ (" |").toList)) =
    n ++ (" |").toList from rfl]
  have hfp : firstPipeGe1 (n ++ (" |").toList) = some (n.length + 1) := by
    rw [hne]
    rw [show ((a :: t) ++ (" |").toList) = a :: (t ++ (" |").toList) from rfl]
    unfold firstPipeGe1
    show Option.map (fun x => x + 1) (findPipeIdx (t ++ (" |").toList)) = _
    rw [show (t ++ (" |").toList : List Char) = (t ++ [' ']) ++ '|' :: []
      from by simp]
    rw [findPipeIdx_append _ (by
      simp only [List.mem_append, not_or]
      constructor
      · intro hc
        exact absurd rfl ((goodName_mem hn '|' (by rw [hne]; simp [hc])).1)
      · simp)]
    simp
  rw [hfp]
  show some (pyStripL (List.take
      (max 1 (n.length + 1 - wsRunBefore (n ++ (" |").toList) (n.length + 1)))
      (n ++ (" |").toList))) = some n
  have hws : wsRunBefore (n ++ (" |").toList) (n.length + 1) = 1 := by
    unfold wsRunBefore
    rw [show ((" |").toList) = ' ' :: ['|'] from rfl]
    rw [show n.length + 1 = n.length + 1 from rfl]
    rw [take_len_plus n (' ' :: ['|']) 1]
    rw [show (' ' :: ['|']).take 1 = [' '] from rfl]
    rw [List.reverse_append]
    rw [show ([' '] : List Char).reverse = [' '] from rfl]
    rw [List.cons_append, List.takeWhile_cons, if_pos (by rfl)]
    rw [List.nil_append, takeWhile_ws_reverse_nil (goodName_last hn)]
    rfl
  rw [hws]
  have hmax : max 1 (n.length + 1 - 1) = n.length := by
    have : n.length ≥ 1 := by rw [hne]; simp
    omega
  rw [hmax]
  rw [show List.take n.length (n ++ (" |").toList) = n from by
    have h0 := take_len_plus n ((" |").toList) 0
    simp only [Nat.add_zero, List.take_zero, List.append_nil] at h0
    exact h0]
  rw [pyStripL_id (goodName_head hn) (goodName_last hn)]

theorem getLast?_leafStripped (n : List Char) :
    (leafStripped n).getLast? = some '|' := by
  rw [show leafStripped n = ('#' :: ' ' :: n) ++ (" |").toList from by
    simp [leafStripped]]
  rw [List.getLast?_append_of_ne_nil _ (by simp)]
  rfl

theorem pyStripL_leafStripped (n : List Char) :
    pyStripL (leafStripped n) = leafStripped n := by
  apply pyStripL_id
  · intro x hx
    simp [leafStripped] at hx
    rw [← hx]; rfl
  · intro x hx
    rw [getLast?_leafStripped] at hx
    simp at hx
    rw [← hx]; rfl

theorem pyStripL_leafOutLine (n : List Char) :
    pyStripL (leafOutLine n) = leafStripped n := by
  rw [show leafOutLine n = leafStripped n ++ [' '] from by
    simp [leafOutLine, leafStripped]]
  rw [show pyStripL (leafStripped n ++ [' ']) = pyStripL (leafStripped n) from
    pyStripL_ws_suffix (Y := ' ' :: (n ++ (" |").toList)) (by rfl)
      (by intro c hc; simp at hc; rw [hc]; rfl)]
  exact pyStripL_leafStripped n


/-- Field-mapping update performed when a field header line commits the
previously open field, when one is open and truthy. -/
def commitOpt (flds : List (List Char × List Char)) (cf : Option (List Char))
    (cfc : List (List Char)) : List (List Char × List Char) :=
  if truthyStr cf then dictInsert flds (cf.getD []) (pyStripL (joinNl cfc))
  else flds

/-- Insertion of a run of blank-valued fields. -/
def insEmpty (m : List (List Char × List Char)) (ns : List (List Char)) :
    List (List Char × List Char) :=
  ns.foldl (fun acc n => dictInsert acc n []) m

theorem pwGo_cons_cons (l r : List Char) (rest : List (List Char))
    (st : PWState) :
    pwGo (l :: r :: rest) st =
      if List.isPrefixOf ('#' :: [' ']) (pyStripL l) &&
          pyStripL r = ("---").toList then
        pwGo rest ⟨finalizeIfOpen st, some (pyStripL ((pyStripL l).drop 2)), [],
                   [pyStripL l, r], none, []⟩
      else pwGo (r :: rest) (stepLine st (pyStripL l)) := rfl

theorem pwGo_single (l : List Char) (st : PWState) :
    pwGo [l] st = finalizeIfOpen (stepLine st (pyStripL l)) := rfl

theorem stepLine_leafStripped (n : List Char) (hn : goodName n = true)
    (secs : List (List Char × PSection)) (t : List Char)
    (flds : List (List Char × List Char)) (cont : List (List Char))
    (cf : Option (List Char)) (cfc : List (List Char)) :
    stepLine ⟨secs, some t, flds, cont, cf, cfc⟩ (leafStripped n) =
      ⟨secs, some t, commitOpt flds cf cfc, cont ++ [leafStripped n],
        some n, []⟩ := by
  unfold stepLine
  rw [if_pos (by
    rw [getLast?_leafStripped]
    simp [leafStripped, List.isPrefixOf])]
  rw [matchWName_leafStripped n hn]
  by_cases htr : truthyStr cf
  · simp [htr, commitOpt, commitField]
  · simp [htr, commitOpt, commitField]

theorem stepLine_blank (secs : List (List Char × PSection)) (t : List Char)
    (flds : List (List Char × List Char)) (cont : List (List Char))
    (n : List Char) (hn : n ≠ []) (cfc : List (List Char)) :
    stepLine ⟨secs, some t, flds, cont, some n, cfc⟩ [] =
      ⟨secs, some t, flds, cont ++ [[]], some n, cfc ++ [[]]⟩ := by
  unfold stepLine
  rw [if_neg (by simp [List.isPrefixOf])]
  rw [if_neg (by simp [List.isPrefixOf])]
  simp [truthyStr, hn]

theorem pw_walk : ∀ (ns0 : List (List Char)) (nk : List Char)
    (secs : List (List Char × PSection)) (t : List Char)
    (flds : List (List Char × List Char)) (cont : List (List Char))
    (cf : Option (List Char)) (cfc : List (List Char)),
    (∀ n ∈ ns0, goodName n = true) → goodName nk = true →
    ∃ c2, pwGo (flatMapL (fun n => [leafOutLine n, []]) ns0 ++ [leafStripped nk])
        ⟨secs, some t, flds, cont, cf, cfc⟩ =
      dictInsert secs t ⟨t, c2, insEmpty (commitOpt flds cf cfc) (ns0 ++ [nk])⟩ := by
  intro ns0
  induction ns0 with
  | nil =>
    intro nk secs t flds cont cf cfc _ hnk
    refine ⟨joinNl (cont ++ [leafStripped nk]), ?_⟩
    rw [show flatMapL (fun n => [leafOutLine n, []]) [] ++ [leafStripped nk] =
      [leafStripped nk] from rfl]
    rw [pwGo_single, pyStripL_leafStripped nk]
    rw [stepLine_leafStripped nk hnk secs t flds cont cf cfc]
    unfold finalizeIfOpen
    have htr : truthyStr (some nk) = true := by
      simp [truthyStr, List.isEmpty_iff, goodName_ne_nil hnk]
    simp only [htr, if_true]
    rw [show commitField ⟨secs, some t, commitOpt flds cf cfc,
        cont ++ [leafStripped nk], some nk, []⟩ =
      dictInsert (commitOpt flds cf cfc) nk [] from rfl]
    rfl
  | cons n ns ih =>
    intro nk secs t flds cont cf cfc hg hnk
    have hgn : goodName n = true := hg n (by simp)
    rw [show flatMapL (fun n => [leafOutLine n, []]) (n :: ns) ++ [leafStripped nk] =
      leafOutLine n :: [] ::
        (flatMapL (fun n => [leafOutLine n, []]) ns ++ [leafStripped nk]) from by
      simp [flatMapL]]
    obtain ⟨y, ys, hys⟩ : ∃ y ys,
        flatMapL (fun n => [leafOutLine n, []]) ns ++ [leafStripped nk] =
          y :: ys := by
      rcases hsplit : flatMapL (fun n => [leafOutLine n, []]) ns ++
          [leafStripped nk] with _ | ⟨y, ys⟩
      · exact absurd hsplit (by simp)
      · exact ⟨y, ys, rfl⟩
    rw [hys, pwGo_cons_cons, pyStripL_leafOutLine n]
    rw [if_neg (by simp [pyStripL])]
    rw [stepLine_leafStripped n hgn secs t flds cont cf cfc]
    rw [← hys]
    rcases hsplit2 : flatMapL (fun n => [leafOutLine n, []]) ns ++
        [leafStripped nk] with _ | ⟨y2, ys2⟩
    · exact absurd hsplit2 (by simp)
    rw [pwGo_cons_cons]
    rw [show pyStripL ([] : List Char) = [] from rfl]
    rw [if_neg (by simp [List.isPrefixOf])]
    rw [stepLine_blank secs t (commitOpt flds cf cfc)
      (cont ++ [leafStripped n]) n (goodName_ne_nil hgn) []]
    rw [← hsplit2]
    rcases ih nk secs t (commitOpt flds cf cfc) _ (some n) ([] ++ [[]])
      (fun x hx => hg x (by simp [hx])) hnk with ⟨c2, hc2⟩
    refine ⟨c2, ?_⟩
    rw [hc2]
    have hco : commitOpt (commitOpt flds cf cfc) (some n) ([] ++ [[]]) =
        dictInsert (commitOpt flds cf cfc) n [] := by
      have htr : truthyStr (some n) = true := by
        simp [truthyStr, List.isEmpty_iff, goodName_ne_nil hgn]
      simp [commitOpt, htr]
      rfl
    rw [hco]
    rfl

theorem insEmpty_fresh : ∀ (ns : List (List Char))
    (m : List (List Char × List Char)), ns.Nodup →
    (∀ n ∈ ns, m.any (fun p => p.1 == n) = false) →
    insEmpty m ns = m ++ ns.map (fun n => (n, ([] : List Char))) := by
  intro ns
  induction ns with
  | nil => intro m _ _; simp [insEmpty]
  | cons n ns ih =>
    intro m hd hf
    have hm : dictInsert m n [] = m ++ [(n, [])] := by
      unfold dictInsert
      rw [if_neg (by simp [hf n (by simp)])]
    rw [show insEmpty m (n :: ns) = insEmpty (dictInsert m n []) ns from rfl]
    rw [ih (dictInsert m n []) (by simp at hd; exact hd.2) (by
      intro x hx
      rw [hm]
      simp only [List.any_append, List.any_cons, List.any_nil, Bool.or_false]
      rw [hf x (by simp [hx])]
      simp only [Bool.false_or]
      have : n ≠ x := by
        simp at hd
        exact fun hh => hd.1 (by rw [hh]; exact hx)
      simp [this])]
    rw [hm]
    simp

theorem joinWith_append (sep : Char) : ∀ (A B : List (List Char)), A ≠ [] →
    B ≠ [] → joinWith sep (A ++ B) = joinWith sep A ++ sep :: joinWith sep B := by
  intro A
  induction A with
  | nil => intro B hA _; exact absurd rfl hA
  | cons a A ih =>
    intro B _ hB
    cases A with
    | nil =>
      cases B with
      | nil => exact absurd rfl hB
      | cons b bs => rfl
    | cons a2 A2 =>
      rcases hsp : (a2 :: A2) ++ B with _ | ⟨x, xs⟩
      · exact absurd hsp (by simp)
      · rw [show (a :: a2 :: A2) ++ B = a :: ((a2 :: A2) ++ B) from rfl]
        rw [hsp]
        rw [show joinWith sep (a :: x :: xs) =
          a ++ sep :: joinWith sep (x :: xs) from rfl]
        rw [← hsp, ih B (by simp) hB]
        rw [show joinWith sep (a :: a2 :: A2) =
          a ++ sep :: joinWith sep (a2 :: A2) from rfl]
        simp

theorem getLast?_append_right {α : Type} (A : List α) {B : List α}
    (hB : B ≠ []) : (A ++ B).getLast? = B.getLast? := by
  induction A with
  | nil => rfl
  | cons a A ih =>
    rw [List.cons_append]
    rcases hAB : A ++ B with _ | ⟨x, xs⟩
    · exact absurd (List.append_eq_nil.mp hAB).2 hB
    · rw [hAB] at ih
      rw [List.getLast?_cons_cons]
      exact ih

theorem mem_flatMapL {α β : Type} {f : α → List β} : ∀ {l : List α} {x : β},
    x ∈ flatMapL f l → ∃ y ∈ l, x ∈ f y := by
  intro l
  induction l with
  | nil => intro x hx; simp [flatMapL] at hx
  | cons a l ih =>
    intro x hx
    rw [show flatMapL f (a :: l) = f a ++ flatMapL f l from rfl] at hx
    rcases List.mem_append.mp hx with h | h
    · exact ⟨a, by simp, h⟩
    · rcases ih h with ⟨y, hy, hxy⟩
      exact ⟨y, by simp [hy], hxy⟩

theorem nl_not_mem_leafOutLine {n : List Char} (hn : goodName n = true) :
    '\n' ∉ leafOutLine n := by
  intro h
  simp only [leafOutLine, List.mem_cons, List.mem_append] at h
  rcases h with h | h | h | h
  · exact absurd h (by decide)
  · exact absurd h (by decide)
  · exact (goodName_mem hn _ h).2.2.2 rfl
  · exact absurd h (by decide)

theorem nl_not_mem_leafStripped {n : List Char} (hn : goodName n = true) :
    '\n' ∉ leafStripped n := by
  intro h
  simp only [leafStripped, List.mem_cons, List.mem_append] at h
  rcases h with h | h | h | h
  · exact absurd h (by decide)
  · exact absurd h (by decide)
  · exact (goodName_mem hn _ h).2.2.2 rfl
  · exact absurd h (by decide)

theorem nl_not_mem_header {s : List Char} (hs : goodName s = true) :
    '\n' ∉ '#' :: ' ' :: s := by
  intro h
  simp only [List.mem_cons] at h
  rcases h with h | h | h
  · exact absurd h (by decide)
  · exact absurd h (by decide)
  · exact (goodName_mem hs _ h).2.2.2 rfl

theorem pyStripL_header {s : List Char} (hs : goodName s = true) :
    pyStripL ('#' :: ' ' :: s) = '#' :: ' ' :: s := by
  apply pyStripL_id
  · intro a ha; simp at ha; rw [← ha]; rfl
  · intro a ha
    rw [show '#' :: ' ' :: s = ['#', ' '] ++ s from rfl] at ha
    rw [getLast?_append_right ['#', ' '] (goodName_ne_nil hs)] at ha
    exact goodName_last hs a ha

theorem c1Output_strip (s : List Char) (ns0 : List (List Char))
    (nk : List Char) :
    pyStripL (c1Output s (ns0 ++ [nk])) =
      joinNl (('#' :: ' ' :: s) :: ("---").toList ::
        (flatMapL (fun n => [leafOutLine n, []]) ns0 ++ [leafStripped nk])) := by
  have hA : c1Output s (ns0 ++ [nk]) =
      (joinNl (('#' :: ' ' :: s) :: ("---").toList ::
          flatMapL (fun n => [leafOutLine n, []]) ns0) ++
        '\n' :: leafStripped nk) ++ [' ', '\n'] := by
    unfold c1Output
    rw [flatMapL_append]
    rw [show flatMapL (fun n => [leafOutLine n, []]) [nk] =
      [leafOutLine nk, []] from rfl]
    rw [show ('#' :: ' ' :: s) :: ("---").toList ::
        (flatMapL (fun n => [leafOutLine n, []]) ns0 ++ [leafOutLine nk, []]) =
      (('#' :: ' ' :: s) :: ("---").toList ::
        flatMapL (fun n => [leafOutLine n, []]) ns0) ++ [leafOutLine nk, []]
      from by simp]
    unfold joinNl
    rw [joinWith_append '\n' _ _ (by simp) (by simp)]
    rw [show joinWith '\n' [leafOutLine nk, []] = leafOutLine nk ++ ['\n']
      from rfl]
    rw [show leafOutLine nk ++ ['\n'] = leafStripped nk ++ [' ', '\n'] from by
      simp [leafOutLine, leafStripped]]
    simp
  rw [hA]
  have hB : joinNl (('#' :: ' ' :: s) :: ("---").toList ::
      flatMapL (fun n => [leafOutLine n, []]) ns0) ++ '\n' :: leafStripped nk =
      '#' :: ((' ' :: s ++ '\n' :: joinWith '\n' (("---").toList ::
        flatMapL (fun n => [leafOutLine n, []]) ns0)) ++
          '\n' :: leafStripped nk) := by
    rw [show joinNl (('#' :: ' ' :: s) :: ("---").toList ::
        flatMapL (fun n => [leafOutLine n, []]) ns0) =
      ('#' :: ' ' :: s) ++ '\n' :: joinWith '\n' (("---").toList ::
        flatMapL (fun n => [leafOutLine n, []]) ns0) from rfl]
    simp
  have hC : joinNl (('#' :: ' ' :: s) :: ("---").toList ::
      (flatMapL (fun n => [leafOutLine n, []]) ns0 ++ [leafStripped nk])) =
      joinNl (('#' :: ' ' :: s) :: ("---").toList ::
        flatMapL (fun n => [leafOutLine n, []]) ns0) ++
        '\n' :: leafStripped nk := by
    rw [show ('#' :: ' ' :: s) :: ("---").toList ::
        (flatMapL (fun n => [leafOutLine n, []]) ns0 ++ [leafStripped nk]) =
      (('#' :: ' ' :: s) :: ("---").toList ::
        flatMapL (fun n => [leafOutLine n, []]) ns0) ++ [leafStripped nk]
      from by simp]
    unfold joinNl
    rw [joinWith_append '\n' _ _ (by simp) (by simp)]
    rfl
  rw [hC, hB]
  rw [pyStripL_ws_suffix (by decide) (by decide)]
  rw [← hB]
  apply pyStripL_id
  · intro a ha
    rw [hB] at ha
    simp at ha
    rw [← ha]; rfl
  · intro a ha
    rw [getLast?_append_right _ (by simp)] at ha
    rw [show ('\n' :: leafStripped nk) = ['\n'] ++ leafStripped nk from rfl]
      at ha
    rw [getLast?_append_right ['\n'] (by simp [leafStripped])] at ha
    rw [getLast?_leafStripped] at ha
    simp at ha
    rw [← ha]; rfl

theorem c1Output_split (s : List Char) (ns0 : List (List Char))
    (nk : List Char) (hs : goodName s = true)
    (hn0 : ∀ n ∈ ns0, goodName n = true) (hnk : goodName nk = true) :
    splitOnCh '\n' (pyStripL (c1Output s (ns0 ++ [nk]))) =
      ('#' :: ' ' :: s) :: ("---").toList ::
        (flatMapL (fun n => [leafOutLine n, []]) ns0 ++ [leafStripped nk]) := by
  rw [c1Output_strip s ns0 nk]
  unfold joinNl
  apply splitOnCh_joinWith '\n' _ (by simp)
  intro l hl
  rcases List.mem_cons.mp hl with hl | hl
  · rw [hl]; exact nl_not_mem_header hs
  · rcases List.mem_cons.mp hl with hl | hl
    · rw [hl]; decide
    · rcases List.mem_append.mp hl with hl | hl
      · rcases mem_flatMapL hl with ⟨y, hy, hxy⟩
        rcases List.mem_cons.mp hxy with hxy | hxy
        · rw [hxy]; exact nl_not_mem_leafOutLine (hn0 y hy)
        · rw [List.mem_singleton.mp hxy]; simp
      · rw [List.mem_singleton.mp hl]
        exact nl_not_mem_leafStripped hnk

theorem parseWorksheetContent_none (text : List Char) :
    parseWorksheetContent text none =
      .all (pwGo (splitOnCh '\n' (pyStripL text)) ⟨[], none, [], [], none, []⟩) :=
  rfl

theorem c1_parse (s : List Char) (names : List (List Char))
    (hs : goodName s = true) (hn : ∀ n ∈ names, goodName n = true)
    (hd : names.Nodup) :
    ∃ c2, parseWorksheetContent (c1Output s names) none =
      .all [(s, ⟨s, c2, names.map (fun n => (n, ([] : List Char)))⟩)] := by
  rcases List.eq_nil_or_concat names with rfl | ⟨ns0, nk, rfl⟩
  · refine ⟨joinNl [('#' :: ' ' :: s), ("---").toList], ?_⟩
    have hstrip : pyStripL (c1Output s []) =
        ('#' :: ' ' :: s) ++ '\n' :: ("---").toList := by
      rw [show c1Output s [] = ('#' :: ' ' :: s) ++ '\n' :: ("---").toList
        from rfl]
      apply pyStripL_id
      · intro a ha; simp at ha; rw [← ha]; rfl
      · intro a ha
        rw [getLast?_append_right ('#' :: ' ' :: s) (by simp),
          show ('\n' :: ("---").toList).getLast? = some '-' from rfl] at ha
        rw [← Option.some.inj ha]; rfl
    have hsplit : splitOnCh '\n' (pyStripL (c1Output s [])) =
        [('#' :: ' ' :: s), ("---").toList] := by
      rw [hstrip, splitOnCh_append_sep '\n' _ _ (nl_not_mem_header hs)]
      rfl
    rw [parseWorksheetContent_none, hsplit]
    rw [pwGo_cons_cons, pyStripL_header hs]
    rw [if_pos (by
      rw [show pyStripL (("---").toList) = ("---").toList from rfl]
      simp [List.isPrefixOf])]
    rw [show pyStripL (List.drop 2 ('#' :: ' ' :: s)) = s from
      pyStripL_id (goodName_head hs) (goodName_last hs)]
    rfl
  · rw [List.concat_eq_append] at hn hd ⊢
    have hnk : goodName nk = true := hn nk (by simp)
    have hn0 : ∀ n ∈ ns0, goodName n = true := fun n h => hn n (by simp [h])
    obtain ⟨c2, hc2⟩ := pw_walk ns0 nk [] s [] [('#' :: ' ' :: s),
      ("---").toList] none [] hn0 hnk
    refine ⟨c2, ?_⟩
    rw [parseWorksheetContent_none]
    rw [c1Output_split s ns0 nk hs hn0 hnk]
    rw [pwGo_cons_cons, pyStripL_header hs]
    rw [if_pos (by
      rw [show pyStripL (("---").toList) = ("---").toList from rfl]
      simp [List.isPrefixOf])]
    rw [show pyStripL (List.drop 2 ('#' :: ' ' :: s)) = s from
      pyStripL_id (goodName_head hs) (goodName_last hs)]
    rw [show finalizeIfOpen ⟨[], none, [], [], none, []⟩ = [] from rfl]
    rw [hc2]
    rw [show commitOpt [] none [] = [] from rfl]
    rw [insEmpty_fresh (ns0 ++ [nk]) [] hd (fun n _ => rfl)]
    rfl

/-- C1 (amended): wrapping the depth-1 required leaf fields in a worksheet
section, expanding the template and parsing the result back yields exactly one
section whose field mapping sends each leaf name to the empty string, in
template order: the round trip of leaf names holds once a section boundary
exists (the original claim fails for a sectionless template, see the
counterexample). -/
theorem roundtrip_leaves_amended (s : List Char) (names : List (List Char))
    (hs : goodName s = true) (hn : ∀ n ∈ names, goodName n = true)
    (hd : names.Nodup) :
    parseLlmMd (c1Template s names) none [] = .ok (c1Output s names) ∧
    ∃ c2, parseWorksheetContent (c1Output s names) none =
      .all [(s, ⟨s, c2, names.map (fun n => (n, ([] : List Char)))⟩)] :=
  ⟨c1_expand s names hs hn, c1_parse s names hs hn hd⟩

theorem roundtrip_leaves_amended_witness :
    parseLlmMd (c1Template (("Info").toList)
        [("Name").toList, ("Role").toList]) none [] =
      .ok (c1Output (("Info").toList) [("Name").toList, ("Role").toList]) ∧
    ∃ c2, parseWorksheetContent
        (c1Output (("Info").toList) [("Name").toList, ("Role").toList]) none =
      .all [(("Info").toList, ⟨("Info").toList, c2,
        [(("Name").toList, []), (("Role").toList, [])]⟩)] :=
  roundtrip_leaves_amended (("Info").toList)
    [("Name").toList, ("Role").toList] (by decide)
    (by intro n hn; rcases List.mem_cons.mp hn with h | h
        · rw [h]; decide
        · rw [List.mem_singleton.mp h]; decide)
    (by decide)

end LlmMd
